import Mathlib

set_option maxHeartbeats 1000000

namespace CeresDB

/-!
Shallow embedding of `src/components/parquet/src/serialized_reader.rs`
(the CeresDB fork of the arrow-rs 5.2.0 serialized parquet reader).

Conventions of the embedding:
* machine integers become `Int`/`Nat`; the source's `as usize` / `as u32`
  casts wrap explicitly (`usizeOfI32`, `u32OfI32`);
* Rust `Result` becomes `Outcome`, which has a third constructor
  `panicked` recording Rust panics (debug-mode arithmetic underflow,
  `assert!` failures, `Vec` index out of bounds, `unwrap`) as an outcome
  distinct from a returned error;
* the column-chunk byte stream of the page reader becomes a `List Token`,
  where a `Token.header` stands for the byte span that the external
  Thrift compact-protocol parser consumes as one `PageHeader`, and
  `Token.byte` is one raw body byte;
* the external compression codec (`dyn Codec`) is a black-box function
  `Codec`; the external statistics decoder keeps its arguments abstractly.
-/

/-- Rust `i32 as usize` on a 64-bit target: two's-complement wrap. -/
def usizeOfI32 (i : Int) : Nat := (i % (2 : Int) ^ 64).toNat

/-- Rust `i32 as u32`: two's-complement wrap. -/
def u32OfI32 (i : Int) : Nat := (i % (2 : Int) ^ 32).toNat

/-- Model of arrow-rs `ParquetError` (only the variants this file produces). -/
inductive ParquetError where
  | general (msg : String)
  | eof (msg : String)
  deriving DecidableEq, Repr

/-- Result of running a fallible Rust operation: a normal value, a returned
`Err`, or a panic (which is not a returned error). -/
inductive Outcome (α : Type) where
  | ok (a : α)
  | err (e : ParquetError)
  | panicked (msg : String)
  deriving DecidableEq, Repr

def Outcome.isOk {α : Type} : Outcome α → Bool
  | .ok _ => true
  | _ => false

def Outcome.isErr {α : Type} : Outcome α → Bool
  | .err _ => true
  | _ => false

def Outcome.isPanic {α : Type} : Outcome α → Bool
  | .panicked _ => true
  | _ => false

def Outcome.getD {α : Type} : Outcome α → α → α
  | .ok a, _ => a
  | _, d => d

/-- Rust debug-mode `usize` subtraction, as in
`page_header.compressed_page_size as usize - offset` (line 310):
underflow is a panic, not an error. -/
def usizeSub (a b : Nat) : Outcome Nat :=
  if b ≤ a then .ok (a - b) else .panicked ("attempt to subtract with overflow")

/-! ### Decimal formatting

Embedding of Rust's `format!("{}", n)` for unsigned integers, used by the
error message of line 324 and by `format_page_data_key` (line 43). -/

def digitChar : Nat → Char
  | 0 => '0'
  | 1 => '1'
  | 2 => '2'
  | 3 => '3'
  | 4 => '4'
  | 5 => '5'
  | 6 => '6'
  | 7 => '7'
  | 8 => '8'
  | 9 => '9'
  | _ => '*'

/-- Little-endian decimal digits, with explicit fuel (`fuel ≥ n` suffices). -/
def natDigitsAux : Nat → Nat → List Nat
  | 0, _ => []
  | _ + 1, 0 => []
  | fuel + 1, n => n % 10 :: natDigitsAux fuel (n / 10)

def natDigitsLE (n : Nat) : List Nat := natDigitsAux n n

/-- Decimal rendering of a natural number, as Rust's `Display` for `u64`. -/
def natToString (n : Nat) : String :=
  if n = 0 then "0" else ⟨((natDigitsLE n).reverse.map digitChar)⟩

/-- The exact error message of `serialized_reader.rs:324-327`. -/
def mismatchMsg (actual expected : Nat) : String :=
  "Actual decompressed size doesn\x27t match the expected one (" ++
    natToString actual ++ " vs " ++ natToString expected ++ ")"

/-! ### Parquet thrift page-header data model (`parquet_format` crate) -/

/-- Column physical type (`parquet::basic::Type`). -/
inductive PhysicalType where
  | boolean
  | int32
  | int64
  | int96
  | float
  | double
  | byteArray
  | fixedLenByteArray
  deriving DecidableEq, Repr

/-- `parquet_format::PageType` (a thrift enum; values outside the four
declared variants fail already inside the thrift parser). -/
inductive PageType where
  | dataPage
  | indexPage
  | dictionaryPage
  | dataPageV2
  deriving DecidableEq, Repr

/-- Thrift `DataPageHeader`.  Encodings are kept as their thrift `i32`
values; `Encoding::from` of the source is an injective renaming and is
embedded as the identity. -/
structure DataPageHeader where
  num_values : Int
  encoding : Int
  definition_level_encoding : Int
  repetition_level_encoding : Int
  statistics : Option Nat
  deriving DecidableEq, Repr

/-- Thrift `DataPageHeaderV2`. -/
structure DataPageHeaderV2 where
  num_values : Int
  num_nulls : Int
  num_rows : Int
  encoding : Int
  definition_levels_byte_length : Int
  repetition_levels_byte_length : Int
  is_compressed : Option Bool
  statistics : Option Nat
  deriving DecidableEq, Repr

/-- Thrift `DictionaryPageHeader`. -/
structure DictionaryPageHeader where
  num_values : Int
  encoding : Int
  is_sorted : Option Bool
  deriving DecidableEq, Repr

/-- Thrift `PageHeader`. -/
structure PageHeader where
  type_ : PageType
  uncompressed_page_size : Int
  compressed_page_size : Int
  data_page_header : Option DataPageHeader
  dictionary_page_header : Option DictionaryPageHeader
  data_page_header_v2 : Option DataPageHeaderV2
  deriving DecidableEq, Repr

/-- Model of the external `statistics::from_thrift(physical_type, stats)`
decoder: a black box that combines the column's physical type with the raw
thrift statistics blob. -/
def statisticsFromThrift (physical_type : PhysicalType) (s : Option Nat) :
    Option (PhysicalType × Nat) :=
  s.map (fun raw => (physical_type, raw))

/-- `parquet::column::page::Page` as built by `get_next_page`
(lines 339-385). -/
inductive Page where
  | dictionaryPage (buf : List Nat) (num_values : Nat) (encoding : Int)
      (is_sorted : Bool)
  | dataPage (buf : List Nat) (num_values : Nat) (encoding : Int)
      (def_level_encoding : Int) (rep_level_encoding : Int)
      (statistics : Option (PhysicalType × Nat))
  | dataPageV2 (buf : List Nat) (num_values : Nat) (encoding : Int)
      (num_nulls : Nat) (num_rows : Nat) (def_levels_byte_len : Nat)
      (rep_levels_byte_len : Nat) (is_compressed : Bool)
      (statistics : Option (PhysicalType × Nat))
  deriving DecidableEq, Repr

def Page.pageBuf : Page → List Nat
  | .dictionaryPage buf _ _ _ => buf
  | .dataPage buf _ _ _ _ _ => buf
  | .dataPageV2 buf _ _ _ _ _ _ _ _ => buf

/-- The `num_values` a page contributes to the consumed value count:
dictionary pages contribute nothing (they do not touch
`seen_num_values`), data pages contribute their `num_values` field. -/
def Page.pageValueCount : Page → Nat
  | .dictionaryPage _ _ _ _ => 0
  | .dataPage _ n _ _ _ _ => n
  | .dataPageV2 _ n _ _ _ _ _ _ _ => n

def pagesValueSum (ps : List Page) : Nat :=
  (ps.map Page.pageValueCount).sum

/-! ### The column-chunk byte stream -/

/-- One token of the column chunk stream handed to the page reader. -/
inductive Token where
  | header (ph : PageHeader)
  | byte (b : Nat)
  deriving DecidableEq, Repr

/-- `read_page_header` (lines 274-278): the external thrift parser consumes
the next header span; anything else under the cursor is a thrift error
surfaced as a `ParquetError` (line 292's `?`). -/
def readPageHeader (stream : List Token) :
    Except ParquetError (PageHeader × List Token) :=
  match stream with
  | .header ph :: rest => .ok (ph, rest)
  | _ => .error (.eof ("underlying Thrift error: end of file"))

/-- `self.buf.read_exact(&mut buffer)` (line 314): reads exactly `n` body
bytes; running out of bytes is an I/O error. -/
def readExact (n : Nat) (stream : List Token) :
    Except ParquetError (List Nat × List Token) :=
  match n, stream with
  | 0, s => .ok ([], s)
  | n + 1, .byte b :: rest =>
    match readExact n rest with
    | .ok (bs, s) => .ok (b :: bs, s)
    | .error e => .error e
  | _ + 1, _ => .error (.eof ("failed to fill whole buffer"))

/-! ### `get_next_page` (lines 289-392), split into the same stages as the
source: header + length computation + body read (`readPageBytes`, lines
292-314), conditional decompression (`decompressStep`, lines 318-337), and
the dispatch on page type (`buildPage`, lines 339-385). -/

/-- Lines 300-308: the level offset.  Computed from the presence of a
`data_page_header_v2` sub-header; all other headers use offset 0. -/
def pageOffset (page_header : PageHeader) : Nat :=
  match page_header.data_page_header_v2 with
  | some header_v2 =>
    usizeOfI32 (header_v2.definition_levels_byte_length +
      header_v2.repetition_levels_byte_length)
  | none => 0

/-- Lines 300-308: `can_decompress`.  For a v2 sub-header it is the
`is_compressed` flag, defaulting to `true` when the flag is absent; `true`
for every other header. -/
def pageCanDecompress (page_header : PageHeader) : Bool :=
  match page_header.data_page_header_v2 with
  | some header_v2 => header_v2.is_compressed.getD true
  | none => true

/-- Lines 292-314: read one page header, compute
`compressed_len`/`uncompressed_len` by (panicking) usize subtraction, and
read exactly `offset + compressed_len` body bytes.  Returns the header,
`uncompressed_len`, the body buffer and the remaining stream. -/
def readPageBytes (stream : List Token) :
    Outcome (PageHeader × Nat × List Nat × List Token) :=
  match readPageHeader stream with
  | .error e => .err e
  | .ok (page_header, s1) =>
    let offset := pageOffset page_header
    match usizeSub (usizeOfI32 page_header.compressed_page_size) offset with
    | .err e => .err e
    | .panicked m => .panicked m
    | .ok compressed_len =>
      match usizeSub (usizeOfI32 page_header.uncompressed_page_size) offset with
      | .err e => .err e
      | .panicked m => .panicked m
      | .ok uncompressed_len =>
        match readExact (offset + compressed_len) s1 with
        | .error e => .err e
        | .ok (buffer, s2) => .ok (page_header, uncompressed_len, buffer, s2)

/-- An external decompression codec (`dyn Codec`): from the compressed
input bytes to the decompressed output bytes, or a codec error. -/
def Codec : Type := List Nat → Except ParquetError (List Nat)

/-- Lines 318-337: if a decompressor is configured and `can_decompress`,
decompress the bytes after the level prefix, demand the decompressed size
equals `uncompressed_len`, and reassemble `[level prefix] ++ [payload]`;
otherwise the buffer is used as read. -/
def decompressStep (decompressor : Option Codec) (can_decompress : Bool)
    (offset uncompressed_len : Nat) (buffer : List Nat) : Outcome (List Nat) :=
  match decompressor with
  | some codec =>
    if can_decompress then
      match codec (buffer.drop offset) with
      | .error e => .err e
      | .ok decompressed_buffer =>
        let decompressed_size := decompressed_buffer.length
        if decompressed_size ≠ uncompressed_len then
          .err (.general (mismatchMsg decompressed_size uncompressed_len))
        else if offset = 0 then
          .ok decompressed_buffer
        else
          .ok (buffer.take offset ++ decompressed_buffer)
    else .ok buffer
  | none => .ok buffer

/-- Lines 339-385: dispatch on the declared page type.  A missing matching
sub-header trips an `assert!` (a panic).  Unknown page types (the `_` arm,
i.e. `INDEX_PAGE`) produce no page (`continue`).  Returns the page together
with the `seen_num_values` increment it causes. -/
def buildPage (physical_type : PhysicalType) (page_header : PageHeader)
    (buffer : List Nat) : Outcome (Option (Page × Int)) :=
  match page_header.type_ with
  | .dictionaryPage =>
    match page_header.dictionary_page_header with
    | none => .panicked ("assertion failed: page_header.dictionary_page_header.is_some()")
    | some dict_header =>
      let is_sorted := dict_header.is_sorted.getD false
      .ok (some (Page.dictionaryPage buffer (u32OfI32 dict_header.num_values)
        dict_header.encoding is_sorted, 0))
  | .dataPage =>
    match page_header.data_page_header with
    | none => .panicked ("assertion failed: page_header.data_page_header.is_some()")
    | some header =>
      .ok (some (Page.dataPage buffer (u32OfI32 header.num_values)
        header.encoding header.definition_level_encoding
        header.repetition_level_encoding
        (statisticsFromThrift physical_type header.statistics),
        header.num_values))
  | .dataPageV2 =>
    match page_header.data_page_header_v2 with
    | none => .panicked ("assertion failed: page_header.data_page_header_v2.is_some()")
    | some header =>
      let is_compressed := header.is_compressed.getD true
      .ok (some (Page.dataPageV2 buffer (u32OfI32 header.num_values)
        header.encoding (u32OfI32 header.num_nulls) (u32OfI32 header.num_rows)
        (u32OfI32 header.definition_levels_byte_length)
        (u32OfI32 header.repetition_levels_byte_length) is_compressed
        (statisticsFromThrift physical_type header.statistics),
        header.num_values))
  | .indexPage => .ok none

/-- One iteration of the `while` loop of `get_next_page`: `.ok (none, rest)`
is the `continue` case (unknown page type skipped). -/
def readOnePage (decompressor : Option Codec) (physical_type : PhysicalType)
    (stream : List Token) : Outcome (Option (Page × Int) × List Token) :=
  match readPageBytes stream with
  | .err e => .err e
  | .panicked m => .panicked m
  | .ok (page_header, uncompressed_len, buffer, rest) =>
    match decompressStep decompressor (pageCanDecompress page_header)
        (pageOffset page_header) uncompressed_len buffer with
    | .err e => .err e
    | .panicked m => .panicked m
    | .ok buffer2 =>
      match buildPage physical_type page_header buffer2 with
      | .err e => .err e
      | .panicked m => .panicked m
      | .ok r => .ok (r, rest)

/-- The `while self.seen_num_values < self.total_num_values` loop of
`get_next_page`, with explicit fuel for kernel computability.  Every
iteration consumes at least the header token, so `stream.length + 1` fuel
never runs out (the fuel-exhaustion arm is unreachable). -/
def pageLoopF (decompressor : Option Codec) (physical_type : PhysicalType)
    (total : Int) : Nat → List Token → Int →
    Outcome (Option Page × List Token × Int)
  | 0, _, _ => .panicked ("loop fuel exhausted")
  | fuel + 1, stream, seen =>
    if seen < total then
      match readOnePage decompressor physical_type stream with
      | .err e => .err e
      | .panicked m => .panicked m
      | .ok (some pr, rest) => .ok (some pr.1, rest, seen + pr.2)
      | .ok (none, rest) => pageLoopF decompressor physical_type total fuel rest seen
    else
      .ok (none, stream, seen)

def pageLoop (decompressor : Option Codec) (physical_type : PhysicalType)
    (total : Int) (stream : List Token) (seen : Int) :
    Outcome (Option Page × List Token × Int) :=
  pageLoopF decompressor physical_type total (stream.length + 1) stream seen

/-- `SerializedPageReader` state (lines 236-252). -/
structure PageReaderState where
  buf : List Token
  decompressor : Option Codec
  seen_num_values : Int
  total_num_values : Int
  physical_type : PhysicalType

/-- `SerializedPageReader::new` (lines 256-271); the external
`create_codec` factory result is passed in as the decompressor. -/
def SerializedPageReader.new (buf : List Token) (total_num_values : Int)
    (decompressor : Option Codec) (physical_type : PhysicalType) :
    PageReaderState :=
  { buf := buf, decompressor := decompressor, seen_num_values := 0,
    total_num_values := total_num_values, physical_type := physical_type }

/-- `PageReader::get_next_page` (lines 289-392). -/
def getNextPage (s : PageReaderState) : Outcome (Option Page × PageReaderState) :=
  match pageLoop s.decompressor s.physical_type s.total_num_values s.buf
      s.seen_num_values with
  | .err e => .err e
  | .panicked m => .panicked m
  | .ok (r, rest, seen) =>
    .ok (r, { s with buf := rest, seen_num_values := seen })

/-- Runs up to `n` successive `get_next_page` calls, collecting the yielded
pages; the `Bool` records whether a `None` ("no more pages") was reached. -/
def runReader : Nat → PageReaderState → Outcome (List Page × PageReaderState × Bool)
  | 0, s => .ok ([], s, false)
  | n + 1, s =>
    match getNextPage s with
    | .err e => .err e
    | .panicked m => .panicked m
    | .ok (none, s') => .ok ([], s', true)
    | .ok (some p, s') =>
      match runReader n s' with
      | .err e => .err e
      | .panicked m => .panicked m
      | .ok (ps, s2, fin) => .ok (p :: ps, s2, fin)

/-! ### File and row-group readers (lines 43-233)

The parsed metadata (`ParquetMetaData`, external to this repository) is
modeled with just the structure the reader uses: a list of row groups,
each a list of column chunks exposing byte range, value count, compression
and physical type; the file-level metadata is kept as an atom.  The
`Arc`-shared mutable LRU caches are modeled as association lists threaded
through explicitly (eviction is an external concern); `put` publishes an
immutable entry, `get` looks it up. -/

structure ColumnChunkMetaData where
  byte_range : Nat × Nat
  num_values : Int
  compression : Nat
  physical_type : PhysicalType
  deriving DecidableEq, Repr

structure RowGroupMetaData where
  columns : List ColumnChunkMetaData
  deriving DecidableEq, Repr

structure ParquetMetaData where
  file_metadata : Nat
  row_groups : List RowGroupMetaData
  deriving DecidableEq, Repr

def ParquetMetaData.num_row_groups (m : ParquetMetaData) : Nat :=
  m.row_groups.length

/-- `ParquetMetaData::row_group(i)` of arrow-rs: plain `Vec` indexing,
which panics when `i` is out of range (there is no bound check in the
caller at line 132 either). -/
def ParquetMetaData.row_group (m : ParquetMetaData) (i : Nat) :
    Outcome RowGroupMetaData :=
  if h : i < m.row_groups.length then .ok (m.row_groups.get ⟨i, h⟩)
  else .panicked ("index out of bounds")

/-- Data-chunk cache (`DataCacheRef`) and metadata cache (`MetaCacheRef`),
as association lists: newest entry first. -/
def DataCache : Type := List (String × List Nat)

def MetaCache : Type := List (String × ParquetMetaData)

def cacheGet {α : Type} : List (String × α) → String → Option α
  | [], _ => none
  | (k, v) :: tl, key => if k = key then some v else cacheGet tl key

def cachePut {α : Type} (c : List (String × α)) (k : String) (v : α) :
    List (String × α) :=
  (k, v) :: c

/-- `format_page_data_key` (lines 43-45): `format!("{}_{}_{}", ...)`. -/
def format_page_data_key (name : String) (col_start col_length : Nat) : String :=
  name ++ "_" ++ natToString col_start ++ "_" ++ natToString col_length

/-- `CachableSerializedFileReader` (lines 68-73).  The byte source
(`chunk_reader`) is the file's byte content; the shared cache handles are
threaded explicitly next to the reader rather than stored inside it. -/
structure CachableSerializedFileReader where
  name : String
  chunk_reader : List Nat
  metadata : ParquetMetaData
  deriving DecidableEq, Repr

/-- `CachableSerializedFileReader::new` (lines 78-104).  `parse` is the
result of the external `footer::parse_metadata(&chunk_reader)`, which is a
deterministic function of the byte source.  On a metadata-cache hit the
cached value is used without parsing; on a miss the parsed value is
inserted before returning. -/
def CachableSerializedFileReader.new (name : String) (chunk_reader : List Nat)
    (parse : Except ParquetError ParquetMetaData)
    (meta_cache : Option MetaCache) :
    Outcome (CachableSerializedFileReader × Option MetaCache) :=
  match meta_cache with
  | some mc =>
    match cacheGet mc name with
    | some v =>
      .ok ({ name := name, chunk_reader := chunk_reader, metadata := v }, some mc)
    | none =>
      match parse with
      | .error e => .err e
      | .ok meta_data =>
        .ok ({ name := name, chunk_reader := chunk_reader, metadata := meta_data },
          some (cachePut mc name meta_data))
  | none =>
    match parse with
    | .error e => .err e
    | .ok meta_data =>
      .ok ({ name := name, chunk_reader := chunk_reader, metadata := meta_data }, none)

/-- The `for`-loop of `filter_row_groups` (lines 108-119): walks the row
groups with their enumeration index, keeping those the predicate accepts. -/
def filterLoop (predicate : RowGroupMetaData → Nat → Bool) :
    List RowGroupMetaData → Nat → List RowGroupMetaData
  | [], _ => []
  | rg :: tl, i =>
    if predicate rg i then rg :: filterLoop predicate tl (i + 1)
    else filterLoop predicate tl (i + 1)

/-- `filter_row_groups` (lines 108-119): replaces the reader's metadata by
a freshly constructed `ParquetMetaData` with the filtered row groups; the
previously published metadata value is not mutated (here: the argument is
untouched, a new reader value is returned). -/
def CachableSerializedFileReader.filter_row_groups
    (r : CachableSerializedFileReader)
    (predicate : RowGroupMetaData → Nat → Bool) : CachableSerializedFileReader :=
  { r with metadata :=
    { file_metadata := r.metadata.file_metadata,
      row_groups := filterLoop predicate r.metadata.row_groups 0 } }

def CachableSerializedFileReader.num_row_groups
    (r : CachableSerializedFileReader) : Nat :=
  r.metadata.num_row_groups

/-- `SerializedRowGroupReader` (lines 153-158), holding the row-group
metadata view plus the file name used for cache keys. -/
structure SerializedRowGroupReader where
  chunk_reader : List Nat
  metadata : RowGroupMetaData
  name : String
  deriving DecidableEq, Repr

/-- `FileReader::get_row_group` (lines 131-141): no bound check of its own;
the metadata accessor's panic propagates, and the body has no error path. -/
def CachableSerializedFileReader.get_row_group
    (r : CachableSerializedFileReader) (i : Nat) :
    Outcome SerializedRowGroupReader :=
  match r.metadata.row_group i with
  | .err e => .err e
  | .panicked m => .panicked m
  | .ok row_group_metadata =>
    .ok { chunk_reader := r.chunk_reader, metadata := row_group_metadata,
          name := r.name }

/-- The external `ChunkReader::get_read(start, length)` as instantiated for
`File`/`FileSource`: a bounded reader over `[start, start+length)` that
yields at most `length` bytes — fewer when the source ends early, with no
shortfall check of its own. -/
def getRead (source : List Nat) (col_start col_length : Nat) :
    Except ParquetError (List Nat) :=
  .ok ((source.drop col_start).take col_length)

/-- `SerializedRowGroupReader::get_data` (lines 176-181): reads the bounded
chunk to its end (`read_to_end(..).unwrap()`) and returns whatever bytes
came back; an I/O failure inside `read_to_end` would be a panic (`unwrap`),
and no check compares `buf.len()` against `col_length`. -/
def get_data (source : List Nat) (col_start col_length : Nat) :
    Outcome (List Nat) :=
  match getRead source col_start col_length with
  | .error e => .err e
  | .ok buf => .ok buf

/-- `get_file_chunk` (lines 183-199): with a data cache, a hit returns a
cursor over the cached bytes; a miss reads the chunk, publishes it under
`format_page_data_key`, and returns it; with no cache every call reads the
source directly. -/
def get_file_chunk (name : String) (source : List Nat)
    (data_cache : Option DataCache) (col_start col_length : Nat) :
    Outcome (List Nat × Option DataCache) :=
  match data_cache with
  | some dc =>
    let key := format_page_data_key name col_start col_length
    match cacheGet dc key with
    | some v => .ok (v, some dc)
    | none =>
      match get_data source col_start col_length with
      | .err e => .err e
      | .panicked m => .panicked m
      | .ok buf_arc => .ok (buf_arc, some (cachePut dc key buf_arc))
  | none =>
    match get_data source col_start col_length with
    | .err e => .err e
    | .panicked m => .panicked m
    | .ok buf_arc => .ok (buf_arc, none)

/-! ### A full read pipeline, for the caching-refinement claim -/

/-- The (start, length) byte ranges of every column chunk of the file, row
group by row group — the requests a full file read issues. -/
def chunkRequests (m : ParquetMetaData) : List (Nat × Nat) :=
  (m.row_groups.map (fun rg => rg.columns.map (fun c => c.byte_range))).flatten

/-- Direct, uncached read of one column chunk. -/
def directRead (source : List Nat) (col_start col_length : Nat) : List Nat :=
  (source.drop col_start).take col_length

def directChunks (source : List Nat) (m : ParquetMetaData) : List (List Nat) :=
  (chunkRequests m).map (fun p => directRead source p.1 p.2)

/-- Resolves a list of column-chunk requests through `get_file_chunk`,
threading the (shared, mutable) data cache. -/
def runRequests (name : String) (source : List Nat) :
    List (Nat × Nat) → Option DataCache →
    Outcome (List (List Nat) × Option DataCache)
  | [], dc => .ok ([], dc)
  | (s, l) :: tl, dc =>
    match get_file_chunk name source dc s l with
    | .err e => .err e
    | .panicked m => .panicked m
    | .ok (buf, dc') =>
      match runRequests name source tl dc' with
      | .err e => .err e
      | .panicked m => .panicked m
      | .ok (outs, dc'') => .ok (buf :: outs, dc'')

/-- One full read of the file: open the reader (resolving or caching the
metadata) and fetch every column chunk.  The observable result is the
metadata together with the chunk bytes; pages and decoded rows are
deterministic functions of these. -/
def fullRead (name : String) (source : List Nat)
    (parse : Except ParquetError ParquetMetaData)
    (mc : Option MetaCache) (dc : Option DataCache) :
    Outcome ((ParquetMetaData × List (List Nat)) × Option MetaCache × Option DataCache) :=
  match CachableSerializedFileReader.new name source parse mc with
  | .err e => .err e
  | .panicked m => .panicked m
  | .ok (reader, mc') =>
    match runRequests name source (chunkRequests reader.metadata) dc with
    | .err e => .err e
    | .panicked m => .panicked m
    | .ok (chunks, dc') => .ok ((reader.metadata, chunks), mc', dc')

/-- `n` repeated full reads of the same file through the same caches. -/
def repeatFullRead (name : String) (source : List Nat)
    (parse : Except ParquetError ParquetMetaData) :
    Nat → Option MetaCache → Option DataCache →
    Outcome (List (ParquetMetaData × List (List Nat)) × Option MetaCache × Option DataCache)
  | 0, mc, dc => .ok ([], mc, dc)
  | n + 1, mc, dc =>
    match fullRead name source parse mc dc with
    | .err e => .err e
    | .panicked m => .panicked m
    | .ok (res, mc', dc') =>
      match repeatFullRead name source parse n mc' dc' with
      | .err e => .err e
      | .panicked m => .panicked m
      | .ok (ress, mc2, dc2) => .ok (res :: ress, mc2, dc2)

/-! ### Well-formed column chunks

A column chunk, as laid out on disk, is a sequence of records: one page
header followed by exactly the body bytes the header declares.  `recWF`
states the consistency conditions a well-formed chunk record satisfies
(non-pathological sizes, the matching sub-header present, decompression
succeeding, sane value counts). -/

def recTokens (ph : PageHeader) (body : List Nat) : List Token :=
  Token.header ph :: body.map Token.byte

def flattenRecs : List (PageHeader × List Nat) → List Token
  | [] => []
  | (ph, body) :: tl => recTokens ph body ++ flattenRecs tl

/-- The `seen_num_values` increment the record's page causes. -/
def recValueInc (ph : PageHeader) : Int :=
  match ph.type_ with
  | .dataPage => (ph.data_page_header.map (fun h => h.num_values)).getD 0
  | .dataPageV2 => (ph.data_page_header_v2.map (fun h => h.num_values)).getD 0
  | _ => 0

def recsValueSum : List (PageHeader × List Nat) → Int
  | [] => 0
  | (ph, _) :: tl => recValueInc ph + recsValueSum tl

/-- The sub-header matching the declared page type is present. -/
def subHeaderOk (ph : PageHeader) : Bool :=
  match ph.type_ with
  | .dictionaryPage => ph.dictionary_page_header.isSome
  | .dataPage => ph.data_page_header.isSome
  | .dataPageV2 => ph.data_page_header_v2.isSome
  | .indexPage => true

def recWF (d : Option Codec) (ph : PageHeader) (body : List Nat) : Prop :=
  pageOffset ph ≤ usizeOfI32 ph.compressed_page_size ∧
  pageOffset ph ≤ usizeOfI32 ph.uncompressed_page_size ∧
  body.length = usizeOfI32 ph.compressed_page_size ∧
  (decompressStep d (pageCanDecompress ph) (pageOffset ph)
    (usizeOfI32 ph.uncompressed_page_size - pageOffset ph) body).isOk = true ∧
  subHeaderOk ph = true ∧
  0 ≤ recValueInc ph ∧ recValueInc ph < (2 : Int) ^ 32

def chunkWF (d : Option Codec) (recs : List (PageHeader × List Nat)) : Prop :=
  ∀ r ∈ recs, recWF d r.1 r.2

instance (d : Option Codec) (ph : PageHeader) (body : List Nat) :
    Decidable (recWF d ph body) := by
  unfold recWF; infer_instance

instance (d : Option Codec) (recs : List (PageHeader × List Nat)) :
    Decidable (chunkWF d recs) := by
  unfold chunkWF; infer_instance

/-- The page body buffer after the conditional decompression, for a record
whose decompression step succeeds. -/
def recBuffer (d : Option Codec) (ph : PageHeader) (body : List Nat) : List Nat :=
  (decompressStep d (pageCanDecompress ph) (pageOffset ph)
    (usizeOfI32 ph.uncompressed_page_size - pageOffset ph) body).getD []

/-- What one loop iteration of `get_next_page` produces on a well-formed
record: the constructed page and its value increment, or `none` for a
skipped non-value page. -/
def recResult (d : Option Codec) (pt : PhysicalType) (ph : PageHeader)
    (body : List Nat) : Option (Page × Int) :=
  (buildPage pt ph (recBuffer d ph body)).getD none

/-! ### Basic lemmas about the embedded reader -/

theorem Outcome.isOk_eq {α : Type} {o : Outcome α} (h : o.isOk = true)
    (dflt : α) : o = .ok (o.getD dflt) := by
  cases o <;> simp_all [Outcome.isOk, Outcome.getD]

theorem readExact_exact (body : List Nat) (rest : List Token) :
    readExact body.length (body.map Token.byte ++ rest) = .ok (body, rest) := by
  induction body with
  | nil => simp [readExact]
  | cons b tl ih => simp [readExact, ih]

theorem u32OfI32_eq {i : Int} (h0 : 0 ≤ i) (h1 : i < (2 : Int) ^ 32) :
    (u32OfI32 i : Int) = i := by
  unfold u32OfI32
  rw [Int.emod_eq_of_lt h0 (by norm_num at h1 ⊢; omega), Int.toNat_of_nonneg h0]

theorem usizeOfI32_eq {i : Int} (h0 : 0 ≤ i) (h1 : i < (2 : Int) ^ 64) :
    (usizeOfI32 i : Int) = i := by
  unfold usizeOfI32
  rw [Int.emod_eq_of_lt h0 (by norm_num at h1 ⊢; omega), Int.toNat_of_nonneg h0]

theorem readPageBytes_record {ph : PageHeader} {body : List Nat}
    (hc : pageOffset ph ≤ usizeOfI32 ph.compressed_page_size)
    (hu : pageOffset ph ≤ usizeOfI32 ph.uncompressed_page_size)
    (hlen : body.length = usizeOfI32 ph.compressed_page_size)
    (rest : List Token) :
    readPageBytes (recTokens ph body ++ rest) =
      .ok (ph, usizeOfI32 ph.uncompressed_page_size - pageOffset ph, body, rest) := by
  have hcount : pageOffset ph + (usizeOfI32 ph.compressed_page_size - pageOffset ph)
      = body.length := by omega
  simp only [readPageBytes, recTokens, List.cons_append, readPageHeader,
    usizeSub, if_pos hc, if_pos hu, hcount, readExact_exact]

theorem buildPage_ok {ph : PageHeader} (h : subHeaderOk ph = true)
    (pt : PhysicalType) (buffer : List Nat) :
    (buildPage pt ph buffer).isOk = true := by
  unfold subHeaderOk at h
  unfold buildPage
  cases hty : ph.type_ <;> rw [hty] at h <;> simp only [hty]
  case dataPage =>
    cases hsub : ph.data_page_header <;> rw [hsub] at h <;>
      simp_all [Outcome.isOk]
  case indexPage => simp [Outcome.isOk]
  case dictionaryPage =>
    cases hsub : ph.dictionary_page_header <;> rw [hsub] at h <;>
      simp_all [Outcome.isOk]
  case dataPageV2 =>
    cases hsub : ph.data_page_header_v2 <;> rw [hsub] at h <;>
      simp_all [Outcome.isOk]

theorem readOnePage_record {d : Option Codec} (pt : PhysicalType)
    {ph : PageHeader} {body : List Nat} (hwf : recWF d ph body)
    (rest : List Token) :
    readOnePage d pt (recTokens ph body ++ rest) =
      .ok (recResult d pt ph body, rest) := by
  obtain ⟨hc, hu, hlen, hdec, hsub, _⟩ := hwf
  have h1 : decompressStep d (pageCanDecompress ph) (pageOffset ph)
      (usizeOfI32 ph.uncompressed_page_size - pageOffset ph) body =
      .ok (recBuffer d ph body) := by
    rw [recBuffer]; exact Outcome.isOk_eq hdec []
  have h2 : buildPage pt ph (recBuffer d ph body) =
      .ok (recResult d pt ph body) := by
    rw [recResult]; exact Outcome.isOk_eq (buildPage_ok hsub pt _) none
  simp only [readOnePage, readPageBytes_record hc hu hlen rest, h1, h2]

theorem recsValueSum_nonneg {d : Option Codec}
    {recs : List (PageHeader × List Nat)} (h : chunkWF d recs) :
    0 ≤ recsValueSum recs := by
  induction recs with
  | nil => simp [recsValueSum]
  | cons hd tl ih =>
    have h1 := h hd (List.mem_cons_self _ _)
    have h2 : chunkWF d tl := fun r hr => h r (List.mem_cons_of_mem _ hr)
    have := h1.2.2.2.2.2.1
    have := ih h2
    simp only [recsValueSum]
    omega

theorem recResult_spec {d : Option Codec} (pt : PhysicalType)
    {ph : PageHeader} {body : List Nat} (hwf : recWF d ph body) :
    (∀ p i, recResult d pt ph body = some (p, i) →
      i = recValueInc ph ∧ (p.pageValueCount : Int) = i) ∧
    (recResult d pt ph body = none → recValueInc ph = 0) := by
  obtain ⟨_, _, _, _, hsub, hnv0, hnv1⟩ := hwf
  unfold subHeaderOk at hsub
  unfold recResult buildPage
  unfold recValueInc at hnv0 hnv1 ⊢
  cases hty : ph.type_ <;> rw [hty] at hsub hnv0 hnv1
  case indexPage =>
    simp [Outcome.getD]
  case dictionaryPage =>
    cases hdh : ph.dictionary_page_header <;> rw [hdh] at hsub
    · simp at hsub
    · simp only [hdh, Outcome.getD]
      constructor
      · intro p i hpi
        simp only [Option.some.injEq, Prod.mk.injEq] at hpi
        obtain ⟨hp, hi⟩ := hpi
        subst hp; subst hi
        simp [Page.pageValueCount]
      · intro hnone; simp at hnone
  case dataPage =>
    cases hdh : ph.data_page_header <;> rw [hdh] at hsub hnv0 hnv1
    · simp at hsub
    · rename_i header
      simp only [Option.map_some, Option.getD_some] at hnv0 hnv1
      simp only [hdh, Outcome.getD, Option.map_some, Option.getD_some]
      constructor
      · intro p i hpi
        simp only [Option.some.injEq, Prod.mk.injEq] at hpi
        obtain ⟨hp, hi⟩ := hpi
        subst hp; subst hi
        exact ⟨rfl, by simpa [Page.pageValueCount] using u32OfI32_eq hnv0 hnv1⟩
      · intro hnone; simp at hnone
  case dataPageV2 =>
    cases hdh : ph.data_page_header_v2 <;> rw [hdh] at hsub hnv0 hnv1
    · simp at hsub
    · rename_i header
      simp only [Option.map_some, Option.getD_some] at hnv0 hnv1
      simp only [hdh, Outcome.getD, Option.map_some, Option.getD_some]
      constructor
      · intro p i hpi
        simp only [Option.some.injEq, Prod.mk.injEq] at hpi
        obtain ⟨hp, hi⟩ := hpi
        subst hp; subst hi
        exact ⟨rfl, by simpa [Page.pageValueCount] using u32OfI32_eq hnv0 hnv1⟩
      · intro hnone; simp at hnone

theorem flattenRecs_length_ge (recs : List (PageHeader × List Nat)) :
    recs.length ≤ (flattenRecs recs).length := by
  induction recs with
  | nil => simp [flattenRecs]
  | cons hd tl ih =>
    obtain ⟨ph, body⟩ := hd
    simp only [flattenRecs, recTokens, List.length_append, List.length_cons]
    simp at ih ⊢
    omega

/-- The central invariant of the `get_next_page` loop: on a well-formed
chunk the loop returns normally, the remaining stream is again a
well-formed chunk whose value sum is exactly `total - seen`, the consumed
count never passes `total`, and `none` comes back exactly when
`seen = total` at entry. -/
theorem pageLoopF_inv (d : Option Codec) (pt : PhysicalType) (total : Int) :
    ∀ (recs : List (PageHeader × List Nat)) (fuel : Nat) (seen : Int),
    recs.length < fuel → chunkWF d recs → recsValueSum recs = total - seen →
    ∃ r recs' seen',
      pageLoopF d pt total fuel (flattenRecs recs) seen =
        .ok (r, flattenRecs recs', seen') ∧
      chunkWF d recs' ∧ recsValueSum recs' = total - seen' ∧
      seen ≤ seen' ∧ seen' ≤ total ∧
      ((r = none) ↔ seen = total) ∧
      (r = none → seen' = seen ∧ recs' = recs) ∧
      (∀ p, r = some p → seen' = seen + (p.pageValueCount : Int)) := by
  intro recs
  induction recs with
  | nil =>
    intro fuel seen hfuel hwf hsum
    obtain ⟨f, rfl⟩ : ∃ f, fuel = f + 1 := ⟨fuel - 1, by omega⟩
    simp only [recsValueSum] at hsum
    have hseen : seen = total := by omega
    refine ⟨none, [], seen, ?_, hwf, by simp [recsValueSum]; omega, le_refl _,
      by omega, by simp [hseen], fun _ => ⟨rfl, rfl⟩, by simp⟩
    simp [pageLoopF, flattenRecs, hseen]
  | cons hd tl ih =>
    intro fuel seen hfuel hwf hsum
    obtain ⟨ph, body⟩ := hd
    obtain ⟨f, rfl⟩ : ∃ f, fuel = f + 1 := ⟨fuel - 1, by omega⟩
    have hwfhd : recWF d ph body := hwf _ (List.mem_cons_self _ _)
    have hwftl : chunkWF d tl := fun r hr => hwf r (List.mem_cons_of_mem _ hr)
    simp only [recsValueSum] at hsum
    have hnn := recsValueSum_nonneg hwftl
    have hinc0 : 0 ≤ recValueInc ph := hwfhd.2.2.2.2.2.1
    have hro := readOnePage_record pt hwfhd (flattenRecs tl)
    by_cases hlt : seen < total
    · rcases hres : recResult d pt ph body with _ | ⟨p, i⟩
      · -- unknown page type: the record is skipped, the loop continues
        have hinc : recValueInc ph = 0 := (recResult_spec pt hwfhd).2 hres
        have hstep : pageLoopF d pt total (f + 1)
            (flattenRecs ((ph, body) :: tl)) seen =
            pageLoopF d pt total f (flattenRecs tl) seen := by
          simp only [flattenRecs, pageLoopF, if_pos hlt]
          rw [hro, hres]
        obtain ⟨r, recs', seen', hrun, hwf', hsum', hle, hle2, hiff, hnone, hsome⟩ :=
          ih f seen (by simp at hfuel; omega) hwftl (by omega)
        refine ⟨r, recs', seen', by rw [hstep]; exact hrun, hwf', hsum', hle,
          hle2, hiff, ?_, hsome⟩
        intro hr
        exact absurd (hiff.mp hr) (by omega)
      · -- a value-bearing (or dictionary) page is yielded
        obtain ⟨hieq, hpv⟩ := (recResult_spec pt hwfhd).1 p i hres
        refine ⟨some p, tl, seen + i, ?_, hwftl, by omega, by omega, by omega,
          by simp; omega, by simp, ?_⟩
        · simp only [flattenRecs, pageLoopF, if_pos hlt]
          rw [hro, hres]
        · intro p' hp'
          obtain rfl : p = p' := by simpa using hp'
          omega
    · have hseen : seen = total := by omega
      refine ⟨none, (ph, body) :: tl, seen, ?_, hwf, by simp [recsValueSum]; omega,
        le_refl _, by omega, by simp [hseen], fun _ => ⟨rfl, rfl⟩, by simp⟩
      simp [pageLoopF, hlt]

/-- Reachable page-reader states: the remaining stream is a well-formed
chunk whose value sum is exactly the count still to be consumed. -/
def ReaderInv (s : PageReaderState) : Prop :=
  ∃ recs : List (PageHeader × List Nat),
    s.buf = flattenRecs recs ∧ chunkWF s.decompressor recs ∧
    recsValueSum recs = s.total_num_values - s.seen_num_values

theorem getNextPage_inv {s : PageReaderState} (h : ReaderInv s) :
    ∃ r s', getNextPage s = .ok (r, s') ∧ ReaderInv s' ∧
      s'.total_num_values = s.total_num_values ∧
      s'.decompressor = s.decompressor ∧
      s'.physical_type = s.physical_type ∧
      s.seen_num_values ≤ s'.seen_num_values ∧
      s.seen_num_values ≤ s.total_num_values ∧
      s'.seen_num_values ≤ s'.total_num_values ∧
      ((r = none) ↔ s.seen_num_values = s.total_num_values) ∧
      (r = none → s'.seen_num_values = s.seen_num_values) ∧
      (∀ p, r = some p →
        s'.seen_num_values = s.seen_num_values + (p.pageValueCount : Int)) := by
  obtain ⟨recs, hbuf, hwf, hsum⟩ := h
  have hfuel : recs.length < (flattenRecs recs).length + 1 := by
    have := flattenRecs_length_ge recs; omega
  obtain ⟨r, recs', seen', hrun, hwf', hsum', hle, hle2, hiff, hnone, hsome⟩ :=
    pageLoopF_inv s.decompressor s.physical_type s.total_num_values recs
      ((flattenRecs recs).length + 1) s.seen_num_values hfuel hwf hsum
  refine ⟨r, { s with buf := flattenRecs recs', seen_num_values := seen' }, ?_,
    ⟨recs', rfl, hwf', hsum'⟩, rfl, rfl, rfl, hle, ?_, hle2, hiff,
    fun hr => (hnone hr).1, ?_⟩
  · rw [getNextPage, pageLoop, hbuf, hrun]
  · have := recsValueSum_nonneg hwf; omega
  · intro p hp; exact hsome p hp

theorem runReader_inv (n : Nat) :
    ∀ s : PageReaderState, ReaderInv s →
    ∃ ps s' fin, runReader n s = .ok (ps, s', fin) ∧ ReaderInv s' ∧
      s'.total_num_values = s.total_num_values ∧
      (pagesValueSum ps : Int) = s'.seen_num_values - s.seen_num_values ∧
      s.seen_num_values ≤ s'.seen_num_values ∧
      s'.seen_num_values ≤ s'.total_num_values ∧
      (fin = true → s'.seen_num_values = s'.total_num_values) := by
  induction n with
  | zero =>
    intro s h
    obtain ⟨recs, hbuf, hwf, hsum⟩ := h
    have hnn := recsValueSum_nonneg hwf
    exact ⟨[], s, false, rfl, ⟨recs, hbuf, hwf, hsum⟩, rfl,
      by simp [pagesValueSum], le_refl _, by omega, by simp⟩
  | succ n ih =>
    intro s h
    obtain ⟨r, s1, hstep, hinv1, htot1, _, _, hle1, _, hle1', hiff, hnone, hsome⟩ :=
      getNextPage_inv h
    cases r with
    | none =>
      have hseen := hiff.mp rfl
      have hs1seen := hnone rfl
      refine ⟨[], s1, true, ?_, hinv1, htot1, ?_, hle1, hle1', fun _ => by omega⟩
      · simp only [runReader, hstep]
      · simp only [pagesValueSum, List.map_nil, List.sum_nil]; omega
    | some p =>
      obtain ⟨ps, s2, fin, hrun, hinv2, htot2, hsumps, hle2, hle2', hfin⟩ :=
        ih s1 hinv1
      have hps := hsome p rfl
      refine ⟨p :: ps, s2, fin, ?_, hinv2, by omega, ?_, by omega, hle2', hfin⟩
      · simp only [runReader, hstep, hrun]
      · simp only [pagesValueSum, List.map_cons, List.sum_cons] at hsumps ⊢
        push_cast at hsumps ⊢
        omega

/-- C1: for every (well-formed) column chunk, `seen_num_values` never
exceeds `total_num_values`; across any sequence of `get_next_page` calls
the sum of `num_values` over the value-bearing pages returned (dictionary
pages excluded — they do not increment the count) equals the declared
total exactly when the reader first returns `None`; and from any reachable
reader state a call returns `None` exactly when `seen = total`, not when
the byte stream is exhausted. -/
theorem c1_page_reader_value_count (d : Option Codec) (pt : PhysicalType)
    (recs : List (PageHeader × List Nat)) (hwf : chunkWF d recs) (n : Nat) :
    (∃ ps s' fin,
      runReader n (SerializedPageReader.new (flattenRecs recs)
        (recsValueSum recs) d pt) = .ok (ps, s', fin) ∧
      (pagesValueSum ps : Int) = s'.seen_num_values ∧
      s'.seen_num_values ≤ s'.total_num_values ∧
      s'.total_num_values = recsValueSum recs ∧
      (fin = true → (pagesValueSum ps : Int) = recsValueSum recs)) ∧
    (∀ s0 : PageReaderState, ReaderInv s0 →
      ∃ r s1, getNextPage s0 = .ok (r, s1) ∧
        s0.seen_num_values ≤ s0.total_num_values ∧
        s1.seen_num_values ≤ s1.total_num_values ∧
        ((r = none) ↔ s0.seen_num_values = s0.total_num_values)) := by
  constructor
  · have hinv : ReaderInv (SerializedPageReader.new (flattenRecs recs)
        (recsValueSum recs) d pt) :=
      ⟨recs, rfl, hwf, by simp [SerializedPageReader.new]⟩
    obtain ⟨ps, s', fin, hrun, _, htot, hsum, _, hle', hfin⟩ :=
      runReader_inv n _ hinv
    simp only [SerializedPageReader.new] at htot hsum
    refine ⟨ps, s', fin, hrun, by omega, hle', htot, fun hf => ?_⟩
    have := hfin hf
    omega
  · intro s0 h0
    obtain ⟨r, s1, hstep, _, _, _, _, _, hs0, hs1, hiff, _, _⟩ :=
      getNextPage_inv h0
    exact ⟨r, s1, hstep, hs0, hs1, hiff⟩

/-- A concrete well-formed two-page chunk (one dictionary page, one data
page of 3 values) used to witness C1. -/
def c1recs : List (PageHeader × List Nat) :=
  [({ type_ := PageType.dictionaryPage, uncompressed_page_size := 2,
      compressed_page_size := 2, data_page_header := none,
      dictionary_page_header :=
        some { num_values := 4, encoding := 0, is_sorted := none },
      data_page_header_v2 := none }, [7, 8]),
   ({ type_ := PageType.dataPage, uncompressed_page_size := 1,
      compressed_page_size := 1,
      data_page_header :=
        some { num_values := 3, encoding := 0,
               definition_level_encoding := 1,
               repetition_level_encoding := 2, statistics := none },
      dictionary_page_header := none, data_page_header_v2 := none }, [9])]

theorem c1_witness :
    (∃ ps s' fin,
      runReader 3 (SerializedPageReader.new (flattenRecs c1recs)
        (recsValueSum c1recs) none PhysicalType.int32) = .ok (ps, s', fin) ∧
      (pagesValueSum ps : Int) = s'.seen_num_values ∧
      s'.seen_num_values ≤ s'.total_num_values ∧
      s'.total_num_values = recsValueSum c1recs ∧
      (fin = true → (pagesValueSum ps : Int) = recsValueSum c1recs)) ∧
    (∀ s0 : PageReaderState, ReaderInv s0 →
      ∃ r s1, getNextPage s0 = .ok (r, s1) ∧
        s0.seen_num_values ≤ s0.total_num_values ∧
        s1.seen_num_values ≤ s1.total_num_values ∧
        ((r = none) ↔ s0.seen_num_values = s0.total_num_values)) :=
  c1_page_reader_value_count none PhysicalType.int32 c1recs (by decide) 3

theorem mismatchMsg_contains (a e : Nat) :
    List.IsInfix (natToString a).data (mismatchMsg a e).data ∧
    List.IsInfix (natToString e).data (mismatchMsg a e).data := by
  constructor
  · exact ⟨("Actual decompressed size doesn\x27t match the expected one (").data,
      (" vs " ++ natToString e ++ ")").data, by
        simp [mismatchMsg, String.data_append, List.append_assoc]⟩
  · exact ⟨("Actual decompressed size doesn\x27t match the expected one (" ++
        natToString a ++ " vs ").data, (")").data, by
        simp [mismatchMsg, String.data_append, List.append_assoc]⟩

/-- For a value-bearing page type with its sub-header present, `buildPage`
yields a page whose buffer is exactly the buffer handed to it. -/
theorem buildPage_buf {ph : PageHeader} (hsub : subHeaderOk ph = true)
    (hty : ph.type_ ≠ PageType.indexPage) (pt : PhysicalType) (b : List Nat) :
    ∃ p i, buildPage pt ph b = .ok (some (p, i)) ∧ p.pageBuf = b := by
  unfold subHeaderOk at hsub
  unfold buildPage
  cases hcase : ph.type_ <;> rw [hcase] at hsub
  case indexPage => exact absurd hcase hty
  case dictionaryPage =>
    cases hdh : ph.dictionary_page_header <;> rw [hdh] at hsub
    · simp at hsub
    · rename_i dh
      exact ⟨Page.dictionaryPage b (u32OfI32 dh.num_values) dh.encoding
        (dh.is_sorted.getD false), 0, by simp [hdh], rfl⟩
  case dataPage =>
    cases hdh : ph.data_page_header <;> rw [hdh] at hsub
    · simp at hsub
    · rename_i dh
      exact ⟨Page.dataPage b (u32OfI32 dh.num_values) dh.encoding
        dh.definition_level_encoding dh.repetition_level_encoding
        (statisticsFromThrift pt dh.statistics), dh.num_values,
        by simp [hdh], rfl⟩
  case dataPageV2 =>
    cases hdh : ph.data_page_header_v2 <;> rw [hdh] at hsub
    · simp at hsub
    · rename_i dh
      exact ⟨Page.dataPageV2 b (u32OfI32 dh.num_values) dh.encoding
        (u32OfI32 dh.num_nulls) (u32OfI32 dh.num_rows)
        (u32OfI32 dh.definition_levels_byte_length)
        (u32OfI32 dh.repetition_levels_byte_length)
        (dh.is_compressed.getD true)
        (statisticsFromThrift pt dh.statistics), dh.num_values,
        by simp [hdh], rfl⟩

/-- C2: inside `get_next_page`, with a decompressor configured and
`can_decompress` true, the bytes after the level prefix are decompressed;
a size mismatch is an error whose message contains both the actual and the
expected size; on success the page buffer is the unchanged level prefix
followed by the decompressed payload; with no decompressor, or with
`can_decompress` false, the page buffer is exactly the bytes read. -/
theorem c2_decompression (d : Option Codec) (codec : Codec)
    (pt : PhysicalType) (ph : PageHeader) (body : List Nat)
    (rest : List Token)
    (hc : pageOffset ph ≤ usizeOfI32 ph.compressed_page_size)
    (hu : pageOffset ph ≤ usizeOfI32 ph.uncompressed_page_size)
    (hlen : body.length = usizeOfI32 ph.compressed_page_size)
    (hsub : subHeaderOk ph = true)
    (hty : ph.type_ ≠ PageType.indexPage) :
    (∀ out, d = some codec → pageCanDecompress ph = true →
      codec (body.drop (pageOffset ph)) = .ok out →
      out.length ≠ usizeOfI32 ph.uncompressed_page_size - pageOffset ph →
      readOnePage d pt (recTokens ph body ++ rest) =
        .err (.general (mismatchMsg out.length
          (usizeOfI32 ph.uncompressed_page_size - pageOffset ph))) ∧
      List.IsInfix (natToString out.length).data
        (mismatchMsg out.length
          (usizeOfI32 ph.uncompressed_page_size - pageOffset ph)).data ∧
      List.IsInfix
        (natToString (usizeOfI32 ph.uncompressed_page_size - pageOffset ph)).data
        (mismatchMsg out.length
          (usizeOfI32 ph.uncompressed_page_size - pageOffset ph)).data) ∧
    (∀ out, d = some codec → pageCanDecompress ph = true →
      codec (body.drop (pageOffset ph)) = .ok out →
      out.length = usizeOfI32 ph.uncompressed_page_size - pageOffset ph →
      ∃ p i, readOnePage d pt (recTokens ph body ++ rest) =
        .ok (some (p, i), rest) ∧
        p.pageBuf = body.take (pageOffset ph) ++ out) ∧
    ((d = none ∨ pageCanDecompress ph = false) →
      ∃ p i, readOnePage d pt (recTokens ph body ++ rest) =
        .ok (some (p, i), rest) ∧ p.pageBuf = body) := by
  have hpb := readPageBytes_record hc hu hlen rest
  refine ⟨?_, ?_, ?_⟩
  · intro out hd hcan hcodec hne
    subst hd
    have hds : decompressStep (some codec) (pageCanDecompress ph)
        (pageOffset ph) (usizeOfI32 ph.uncompressed_page_size - pageOffset ph)
        body = .err (.general (mismatchMsg out.length
          (usizeOfI32 ph.uncompressed_page_size - pageOffset ph))) := by
      simp only [decompressStep, hcan, if_true, hcodec, if_pos hne]
    refine ⟨?_, mismatchMsg_contains _ _⟩
    simp only [readOnePage, hpb, hds]
  · intro out hd hcan hcodec heq
    subst hd
    have hds : decompressStep (some codec) (pageCanDecompress ph)
        (pageOffset ph) (usizeOfI32 ph.uncompressed_page_size - pageOffset ph)
        body = .ok (body.take (pageOffset ph) ++ out) := by
      simp only [decompressStep, hcan, if_true, hcodec]
      rw [if_neg (not_ne_iff.mpr heq)]
      by_cases hoff : pageOffset ph = 0
      · simp [hoff]
      · simp [hoff]
    obtain ⟨p, i, hbp, hpbuf⟩ := buildPage_buf hsub hty pt
      (body.take (pageOffset ph) ++ out)
    refine ⟨p, i, ?_, hpbuf⟩
    simp only [readOnePage, hpb, hds, hbp]
  · intro hcase
    have hds : decompressStep d (pageCanDecompress ph) (pageOffset ph)
        (usizeOfI32 ph.uncompressed_page_size - pageOffset ph) body =
        .ok body := by
      rcases hcase with hd | hcan
      · subst hd; rfl
      · cases d with
        | none => rfl
        | some c => simp [decompressStep, hcan]
    obtain ⟨p, i, hbp, hpbuf⟩ := buildPage_buf hsub hty pt body
    refine ⟨p, i, ?_, hpbuf⟩
    simp only [readOnePage, hpb, hds, hbp]

/-- A concrete snappy-like codec and a data-page-v2 record with a one-byte
level prefix, used to witness C2. -/
def c2codec : Codec := fun _ => .ok [1, 2]

def c2header : PageHeader :=
  { type_ := PageType.dataPageV2, uncompressed_page_size := 3,
    compressed_page_size := 3, data_page_header := none,
    dictionary_page_header := none,
    data_page_header_v2 :=
      some { num_values := 5, num_nulls := 0, num_rows := 5, encoding := 0,
             definition_levels_byte_length := 1,
             repetition_levels_byte_length := 0,
             is_compressed := some true, statistics := none } }

theorem c2_witness :
    (∀ out, some c2codec = some c2codec → pageCanDecompress c2header = true →
      c2codec ([5, 10, 11].drop (pageOffset c2header)) = .ok out →
      out.length ≠ usizeOfI32 c2header.uncompressed_page_size - pageOffset c2header →
      readOnePage (some c2codec) PhysicalType.int32
          (recTokens c2header [5, 10, 11] ++ []) =
        .err (.general (mismatchMsg out.length
          (usizeOfI32 c2header.uncompressed_page_size - pageOffset c2header))) ∧
      List.IsInfix (natToString out.length).data
        (mismatchMsg out.length
          (usizeOfI32 c2header.uncompressed_page_size - pageOffset c2header)).data ∧
      List.IsInfix
        (natToString (usizeOfI32 c2header.uncompressed_page_size - pageOffset c2header)).data
        (mismatchMsg out.length
          (usizeOfI32 c2header.uncompressed_page_size - pageOffset c2header)).data) ∧
    (∀ out, some c2codec = some c2codec → pageCanDecompress c2header = true →
      c2codec ([5, 10, 11].drop (pageOffset c2header)) = .ok out →
      out.length = usizeOfI32 c2header.uncompressed_page_size - pageOffset c2header →
      ∃ p i, readOnePage (some c2codec) PhysicalType.int32
          (recTokens c2header [5, 10, 11] ++ []) = .ok (some (p, i), []) ∧
        p.pageBuf = [5, 10, 11].take (pageOffset c2header) ++ out) ∧
    ((some c2codec = none ∨ pageCanDecompress c2header = false) →
      ∃ p i, readOnePage (some c2codec) PhysicalType.int32
          (recTokens c2header [5, 10, 11] ++ []) = .ok (some (p, i), []) ∧
        p.pageBuf = [5, 10, 11]) :=
  c2_decompression (some c2codec) c2codec PhysicalType.int32 c2header
    [5, 10, 11] [] (by decide) (by decide) (by decide) (by decide) (by decide)

/-- C3: for a header carrying a data-page-v2 sub-header, `get_next_page`
sets the level offset to `definition_levels_byte_length +
repetition_levels_byte_length` and `can_decompress` to the sub-header's
`is_compressed` flag, defaulting to true when the flag is absent; for any
header not carrying that sub-header, the offset is 0 and `can_decompress`
is true. -/
theorem c3_level_offset_and_can_decompress (ph : PageHeader) :
    (∀ h2, ph.data_page_header_v2 = some h2 →
      (0 ≤ h2.definition_levels_byte_length + h2.repetition_levels_byte_length →
       h2.definition_levels_byte_length + h2.repetition_levels_byte_length <
         (2 : Int) ^ 64 →
       (pageOffset ph : Int) =
         h2.definition_levels_byte_length + h2.repetition_levels_byte_length) ∧
      pageCanDecompress ph = h2.is_compressed.getD true ∧
      (h2.is_compressed = none → pageCanDecompress ph = true)) ∧
    (ph.data_page_header_v2 = none →
      pageOffset ph = 0 ∧ pageCanDecompress ph = true) := by
  constructor
  · intro h2 hv2
    refine ⟨fun h0 h1 => ?_, ?_, ?_⟩
    · simp only [pageOffset, hv2]
      exact usizeOfI32_eq h0 h1
    · simp [pageCanDecompress, hv2]
    · intro hic; simp [pageCanDecompress, hv2, hic]
  · intro hv2
    simp [pageOffset, pageCanDecompress, hv2]

def c3v2 : DataPageHeaderV2 :=
  { num_values := 6, num_nulls := 0, num_rows := 6, encoding := 0,
    definition_levels_byte_length := 2, repetition_levels_byte_length := 1,
    is_compressed := none, statistics := none }

def c3header : PageHeader :=
  { type_ := PageType.dataPageV2, uncompressed_page_size := 9,
    compressed_page_size := 9, data_page_header := none,
    dictionary_page_header := none, data_page_header_v2 := some c3v2 }

theorem c3_witness :
    (pageOffset c3header : Int) =
      c3v2.definition_levels_byte_length + c3v2.repetition_levels_byte_length ∧
    pageCanDecompress c3header = true := by
  have h := (c3_level_offset_and_can_decompress c3header).1 c3v2 rfl
  exact ⟨h.1 (by decide) (by decide), h.2.2 rfl⟩

/-! ### Stream consumption and fuel irrelevance -/

theorem readExact_length_le :
    ∀ (n : Nat) (s : List Token) (bs : List Nat) (rest : List Token),
    readExact n s = .ok (bs, rest) → rest.length ≤ s.length := by
  intro n
  induction n with
  | zero =>
    intro s bs rest h
    simp only [readExact] at h
    obtain ⟨rfl, rfl⟩ : bs = [] ∧ rest = s := by
      cases h; exact ⟨rfl, rfl⟩
    exact le_refl _
  | succ n ih =>
    intro s bs rest h
    cases s with
    | nil => simp [readExact] at h
    | cons t tl =>
      cases t with
      | header ph => simp [readExact] at h
      | byte b =>
        simp only [readExact] at h
        cases hrec : readExact n tl with
        | error e => simp only [hrec, reduceCtorEq] at h
        | ok pr =>
          obtain ⟨bs', rest'⟩ := pr
          simp only [hrec, Except.ok.injEq, Prod.mk.injEq] at h
          obtain ⟨-, hrest⟩ := h
          have := ih tl bs' rest' hrec
          rw [← hrest]
          simp only [List.length_cons]
          omega

theorem readPageBytes_length {s : List Token} {ph : PageHeader} {ul : Nat}
    {buf : List Nat} {rest : List Token}
    (h : readPageBytes s = .ok (ph, ul, buf, rest)) : rest.length < s.length := by
  cases s with
  | nil => simp [readPageBytes, readPageHeader] at h
  | cons t tl =>
    cases t with
    | byte b => simp [readPageBytes, readPageHeader] at h
    | header ph' =>
      simp only [readPageBytes, readPageHeader] at h
      rcases h1 : usizeSub (usizeOfI32 ph'.compressed_page_size) (pageOffset ph') with
        cl | e | m <;> simp only [h1, reduceCtorEq] at h
      rcases h2 : usizeSub (usizeOfI32 ph'.uncompressed_page_size) (pageOffset ph') with
        ul' | e | m <;> simp only [h2, reduceCtorEq] at h
      cases h3 : readExact (pageOffset ph' + cl) tl with
      | error e => simp only [h3, reduceCtorEq] at h
      | ok pr =>
        obtain ⟨bs', rest'⟩ := pr
        simp only [h3, Outcome.ok.injEq, Prod.mk.injEq] at h
        obtain ⟨-, -, -, hrest⟩ := h
        have := readExact_length_le _ _ _ _ h3
        rw [← hrest]
        simp only [List.length_cons]
        omega

theorem readOnePage_length {d : Option Codec} {pt : PhysicalType}
    {s : List Token} {r : Option (Page × Int)} {rest : List Token}
    (h : readOnePage d pt s = .ok (r, rest)) : rest.length < s.length := by
  unfold readOnePage at h
  cases hpb : readPageBytes s with
  | err e => simp only [hpb, reduceCtorEq] at h
  | panicked m => simp only [hpb, reduceCtorEq] at h
  | ok q =>
    obtain ⟨ph, ul, buf, rest'⟩ := q
    simp only [hpb] at h
    have hlen := readPageBytes_length hpb
    cases hds : decompressStep d (pageCanDecompress ph) (pageOffset ph) ul buf with
    | err e => simp only [hds, reduceCtorEq] at h
    | panicked m => simp only [hds, reduceCtorEq] at h
    | ok b2 =>
      simp only [hds] at h
      cases hbp : buildPage pt ph b2 with
      | err e => simp only [hbp, reduceCtorEq] at h
      | panicked m => simp only [hbp, reduceCtorEq] at h
      | ok rr =>
        simp only [hbp, Outcome.ok.injEq, Prod.mk.injEq] at h
        obtain ⟨-, hrest⟩ := h
        rw [← hrest]
        exact hlen

theorem pageLoopF_congr (d : Option Codec) (pt : PhysicalType) (total : Int) :
    ∀ (f1 : Nat) (f2 : Nat) (stream : List Token) (seen : Int),
    stream.length < f1 → stream.length < f2 →
    pageLoopF d pt total f1 stream seen = pageLoopF d pt total f2 stream seen := by
  intro f1
  induction f1 with
  | zero => intro f2 stream seen h1 h2; omega
  | succ f1 ih =>
    intro f2 stream seen h1 h2
    obtain ⟨g2, rfl⟩ : ∃ g2, f2 = g2 + 1 := ⟨f2 - 1, by omega⟩
    simp only [pageLoopF]
    by_cases hlt : seen < total
    · simp only [if_pos hlt]
      cases hro : readOnePage d pt stream with
      | err e => rfl
      | panicked m => rfl
      | ok pr =>
        obtain ⟨r, rest⟩ := pr
        cases r with
        | some p => rfl
        | none =>
          have := readOnePage_length hro
          exact ih g2 rest seen (by omega) (by omega)
    · simp only [if_neg hlt]

/-- C10: a page whose header declares an unrecognized page type (the `_`
match arm, i.e. `INDEX_PAGE`) still has exactly `level_offset +
compressed_len` body bytes consumed before being skipped, so the stream
position after the skip is the start of the next page header and
subsequent pages parse at the correct offsets: the loop continues exactly
as if it had been started right after the skipped record. -/
theorem c10_unknown_page_skip (d : Option Codec) (pt : PhysicalType)
    (ph : PageHeader) (body : List Nat) (rest : List Token)
    (total seen : Int)
    (hidx : ph.type_ = PageType.indexPage)
    (hc : pageOffset ph ≤ usizeOfI32 ph.compressed_page_size)
    (hu : pageOffset ph ≤ usizeOfI32 ph.uncompressed_page_size)
    (hlen : body.length = usizeOfI32 ph.compressed_page_size)
    (hdec : (decompressStep d (pageCanDecompress ph) (pageOffset ph)
      (usizeOfI32 ph.uncompressed_page_size - pageOffset ph) body).isOk = true) :
    readOnePage d pt (recTokens ph body ++ rest) = .ok (none, rest) ∧
    (seen < total →
      pageLoop d pt total (recTokens ph body ++ rest) seen =
        pageLoop d pt total rest seen) ∧
    (seen < total →
      getNextPage ⟨recTokens ph body ++ rest, d, seen, total, pt⟩ =
        getNextPage ⟨rest, d, seen, total, pt⟩) := by
  have hwfrec : recWF d ph body := by
    refine ⟨hc, hu, hlen, hdec, ?_, ?_, ?_⟩ <;>
      simp [subHeaderOk, recValueInc, hidx]
  have hro0 := readOnePage_record pt hwfrec rest
  have hrr : recResult d pt ph body = none := by
    unfold recResult buildPage
    rw [hidx]
    rfl
  rw [hrr] at hro0
  have hloop : ∀ hlt : seen < total,
      pageLoop d pt total (recTokens ph body ++ rest) seen =
        pageLoop d pt total rest seen := by
    intro hlt
    unfold pageLoop
    have hstep : pageLoopF d pt total ((recTokens ph body ++ rest).length + 1)
        (recTokens ph body ++ rest) seen =
        pageLoopF d pt total ((recTokens ph body ++ rest).length) rest seen := by
      conv_lhs => rw [pageLoopF]
      simp only [if_pos hlt, hro0]
    rw [hstep]
    apply pageLoopF_congr
    · have := readOnePage_length hro0; omega
    · omega
  refine ⟨hro0, hloop, fun hlt => ?_⟩
  unfold getNextPage
  simp only [hloop hlt]

def c10header : PageHeader :=
  { type_ := PageType.indexPage, uncompressed_page_size := 2,
    compressed_page_size := 2, data_page_header := none,
    dictionary_page_header := none, data_page_header_v2 := none }

theorem c10_witness :
    readOnePage none PhysicalType.int64
      (recTokens c10header [3, 4] ++ [Token.header c10header]) =
      .ok (none, [Token.header c10header]) ∧
    ((0 : Int) < 5 →
      pageLoop none PhysicalType.int64 5
          (recTokens c10header [3, 4] ++ [Token.header c10header]) 0 =
        pageLoop none PhysicalType.int64 5 [Token.header c10header] 0) ∧
    ((0 : Int) < 5 →
      getNextPage ⟨recTokens c10header [3, 4] ++ [Token.header c10header],
          none, 0, 5, PhysicalType.int64⟩ =
        getNextPage ⟨[Token.header c10header], none, 0, 5,
          PhysicalType.int64⟩) :=
  c10_unknown_page_skip none PhysicalType.int64 c10header [3, 4]
    [Token.header c10header] 5 0 rfl (by decide) (by decide) (by decide)
    (by decide)

def Outcome.panicMsg {α : Type} : Outcome α → Option String
  | .panicked m => some m
  | _ => none

theorem getNextPage_panic {d : Option Codec} {pt : PhysicalType}
    {stream : List Token} {seen total : Int} {m : String}
    (hlt : seen < total) (hro : readOnePage d pt stream = .panicked m) :
    getNextPage ⟨stream, d, seen, total, pt⟩ = .panicked m := by
  have hp : pageLoop d pt total stream seen = .panicked m := by
    unfold pageLoop
    conv_lhs => rw [pageLoopF]
    simp only [if_pos hlt, hro]
  unfold getNextPage
  simp only [hp]

theorem getNextPage_yield {d : Option Codec} {pt : PhysicalType}
    {stream : List Token} {seen total : Int} {p : Page} {i : Int}
    {rest : List Token} (hlt : seen < total)
    (hro : readOnePage d pt stream = .ok (some (p, i), rest)) :
    getNextPage ⟨stream, d, seen, total, pt⟩ =
      .ok (some p, ⟨rest, d, seen + i, total, pt⟩) := by
  have hp : pageLoop d pt total stream seen = .ok (some p, rest, seen + i) := by
    unfold pageLoop
    conv_lhs => rw [pageLoopF]
    simp only [if_pos hlt, hro]
  unfold getNextPage
  simp only [hp]

/-- `readOnePage` on one full record, from the five facts it needs. -/
theorem readOnePage_record5 {d : Option Codec} (pt : PhysicalType)
    {ph : PageHeader} {body : List Nat}
    (hc : pageOffset ph ≤ usizeOfI32 ph.compressed_page_size)
    (hu : pageOffset ph ≤ usizeOfI32 ph.uncompressed_page_size)
    (hlen : body.length = usizeOfI32 ph.compressed_page_size)
    (hdec : (decompressStep d (pageCanDecompress ph) (pageOffset ph)
      (usizeOfI32 ph.uncompressed_page_size - pageOffset ph) body).isOk = true)
    (rest : List Token) :
    readOnePage d pt (recTokens ph body ++ rest) =
      match buildPage pt ph (recBuffer d ph body) with
      | .err e => .err e
      | .panicked m => .panicked m
      | .ok r => .ok (r, rest) := by
  have h1 : decompressStep d (pageCanDecompress ph) (pageOffset ph)
      (usizeOfI32 ph.uncompressed_page_size - pageOffset ph) body =
      .ok (recBuffer d ph body) := by
    rw [recBuffer]; exact Outcome.isOk_eq hdec []
  simp only [readOnePage, readPageBytes_record hc hu hlen rest, h1]

/-- C4 (amended): `get_next_page` computes `compressed_len` as
`compressed_page_size as usize - offset` and `uncompressed_len` as
`uncompressed_page_size as usize - offset`; when the level offset exceeds
either wrapped page size the call halts with a debug-mode subtraction
underflow panic — it does not return an error result and does not
proceed. -/
theorem c4_amended_negative_length_panics (d : Option Codec)
    (pt : PhysicalType) (ph : PageHeader) (s1 : List Token)
    (seen total : Int) (hlt : seen < total) :
    (usizeOfI32 ph.compressed_page_size < pageOffset ph →
      readPageBytes (Token.header ph :: s1) =
        .panicked ("attempt to subtract with overflow") ∧
      getNextPage ⟨Token.header ph :: s1, d, seen, total, pt⟩ =
        .panicked ("attempt to subtract with overflow")) ∧
    (pageOffset ph ≤ usizeOfI32 ph.compressed_page_size →
      usizeOfI32 ph.uncompressed_page_size < pageOffset ph →
      readPageBytes (Token.header ph :: s1) =
        .panicked ("attempt to subtract with overflow") ∧
      getNextPage ⟨Token.header ph :: s1, d, seen, total, pt⟩ =
        .panicked ("attempt to subtract with overflow")) ∧
    (∀ buffer s2, pageOffset ph ≤ usizeOfI32 ph.compressed_page_size →
      pageOffset ph ≤ usizeOfI32 ph.uncompressed_page_size →
      readExact (pageOffset ph +
        (usizeOfI32 ph.compressed_page_size - pageOffset ph)) s1 =
        .ok (buffer, s2) →
      readPageBytes (Token.header ph :: s1) =
        .ok (ph, usizeOfI32 ph.uncompressed_page_size - pageOffset ph,
          buffer, s2)) := by
  refine ⟨?_, ?_, ?_⟩
  · intro hneg
    have hpb : readPageBytes (Token.header ph :: s1) =
        .panicked ("attempt to subtract with overflow") := by
      simp only [readPageBytes, readPageHeader, usizeSub,
        if_neg (by omega : ¬ pageOffset ph ≤ usizeOfI32 ph.compressed_page_size)]
    refine ⟨hpb, getNextPage_panic hlt ?_⟩
    simp only [readOnePage, hpb]
  · intro hc hneg
    have hpb : readPageBytes (Token.header ph :: s1) =
        .panicked ("attempt to subtract with overflow") := by
      simp only [readPageBytes, readPageHeader, usizeSub, if_pos hc,
        if_neg (by omega : ¬ pageOffset ph ≤ usizeOfI32 ph.uncompressed_page_size)]
    refine ⟨hpb, getNextPage_panic hlt ?_⟩
    simp only [readOnePage, hpb]
  · intro buffer s2 hc hu hre
    simp only [readPageBytes, readPageHeader, usizeSub, if_pos hc, if_pos hu, hre]

/-- A header declaring `compressed_page_size = 0` while its v2 sub-header
declares one byte of levels: the level offset (1) exceeds the page size. -/
def c4header : PageHeader :=
  { type_ := PageType.dataPageV2, uncompressed_page_size := 0,
    compressed_page_size := 0, data_page_header := none,
    dictionary_page_header := none,
    data_page_header_v2 :=
      some { num_values := 1, num_nulls := 0, num_rows := 1, encoding := 0,
             definition_levels_byte_length := 1,
             repetition_levels_byte_length := 0,
             is_compressed := some false, statistics := none } }

theorem c4_counterexample :
    (getNextPage ⟨[Token.header c4header], none, 0, 1,
      PhysicalType.int32⟩).isErr = false ∧
    (getNextPage ⟨[Token.header c4header], none, 0, 1,
      PhysicalType.int32⟩).panicMsg =
      some ("attempt to subtract with overflow") := by
  constructor <;> rfl

theorem c4_witness :
    (usizeOfI32 c4header.compressed_page_size < pageOffset c4header →
      readPageBytes (Token.header c4header :: []) =
        .panicked ("attempt to subtract with overflow") ∧
      getNextPage ⟨Token.header c4header :: [], none, 0, 1, PhysicalType.int32⟩ =
        .panicked ("attempt to subtract with overflow")) ∧
    (pageOffset c4header ≤ usizeOfI32 c4header.compressed_page_size →
      usizeOfI32 c4header.uncompressed_page_size < pageOffset c4header →
      readPageBytes (Token.header c4header :: []) =
        .panicked ("attempt to subtract with overflow") ∧
      getNextPage ⟨Token.header c4header :: [], none, 0, 1, PhysicalType.int32⟩ =
        .panicked ("attempt to subtract with overflow")) ∧
    (∀ buffer s2, pageOffset c4header ≤ usizeOfI32 c4header.compressed_page_size →
      pageOffset c4header ≤ usizeOfI32 c4header.uncompressed_page_size →
      readExact (pageOffset c4header +
        (usizeOfI32 c4header.compressed_page_size - pageOffset c4header)) [] =
        .ok (buffer, s2) →
      readPageBytes (Token.header c4header :: []) =
        .ok (c4header,
          usizeOfI32 c4header.uncompressed_page_size - pageOffset c4header,
          buffer, s2)) :=
  c4_amended_negative_length_panics none PhysicalType.int32 c4header []
    0 1 (by decide)

/-- C5 (amended): for a declared dictionary / data-v1 / data-v2 page whose
matching sub-header is absent, `get_next_page` halts with an `assert!`
panic, not a returned error; when the sub-header is present the
constructed page carries exactly the fields extracted from it. -/
theorem c5_amended_missing_subheader_panics (d : Option Codec)
    (pt : PhysicalType) (ph : PageHeader) (body : List Nat)
    (rest : List Token) (seen total : Int)
    (hc : pageOffset ph ≤ usizeOfI32 ph.compressed_page_size)
    (hu : pageOffset ph ≤ usizeOfI32 ph.uncompressed_page_size)
    (hlen : body.length = usizeOfI32 ph.compressed_page_size)
    (hdec : (decompressStep d (pageCanDecompress ph) (pageOffset ph)
      (usizeOfI32 ph.uncompressed_page_size - pageOffset ph) body).isOk = true)
    (hlt : seen < total) :
    (ph.type_ = PageType.dictionaryPage → ph.dictionary_page_header = none →
      getNextPage ⟨recTokens ph body ++ rest, d, seen, total, pt⟩ =
        .panicked ("assertion failed: page_header.dictionary_page_header.is_some()")) ∧
    (ph.type_ = PageType.dataPage → ph.data_page_header = none →
      getNextPage ⟨recTokens ph body ++ rest, d, seen, total, pt⟩ =
        .panicked ("assertion failed: page_header.data_page_header.is_some()")) ∧
    (ph.type_ = PageType.dataPageV2 → ph.data_page_header_v2 = none →
      getNextPage ⟨recTokens ph body ++ rest, d, seen, total, pt⟩ =
        .panicked ("assertion failed: page_header.data_page_header_v2.is_some()")) ∧
    (∀ dh, ph.type_ = PageType.dictionaryPage →
      ph.dictionary_page_header = some dh →
      getNextPage ⟨recTokens ph body ++ rest, d, seen, total, pt⟩ =
        .ok (some (Page.dictionaryPage (recBuffer d ph body)
            (u32OfI32 dh.num_values) dh.encoding (dh.is_sorted.getD false)),
          ⟨rest, d, seen, total, pt⟩)) ∧
    (∀ h1, ph.type_ = PageType.dataPage → ph.data_page_header = some h1 →
      getNextPage ⟨recTokens ph body ++ rest, d, seen, total, pt⟩ =
        .ok (some (Page.dataPage (recBuffer d ph body)
            (u32OfI32 h1.num_values) h1.encoding h1.definition_level_encoding
            h1.repetition_level_encoding
            (statisticsFromThrift pt h1.statistics)),
          ⟨rest, d, seen + h1.num_values, total, pt⟩)) ∧
    (∀ h2, ph.type_ = PageType.dataPageV2 →
      ph.data_page_header_v2 = some h2 →
      getNextPage ⟨recTokens ph body ++ rest, d, seen, total, pt⟩ =
        .ok (some (Page.dataPageV2 (recBuffer d ph body)
            (u32OfI32 h2.num_values) h2.encoding (u32OfI32 h2.num_nulls)
            (u32OfI32 h2.num_rows) (u32OfI32 h2.definition_levels_byte_length)
            (u32OfI32 h2.repetition_levels_byte_length)
            (h2.is_compressed.getD true)
            (statisticsFromThrift pt h2.statistics)),
          ⟨rest, d, seen + h2.num_values, total, pt⟩)) := by
  have hro := readOnePage_record5 pt hc hu hlen hdec rest
  refine ⟨?_, ?_, ?_, ?_, ?_, ?_⟩
  · intro hty hdh
    refine getNextPage_panic hlt ?_
    rw [hro]
    simp only [buildPage, hty, hdh]
  · intro hty hdh
    refine getNextPage_panic hlt ?_
    rw [hro]
    simp only [buildPage, hty, hdh]
  · intro hty hdh
    refine getNextPage_panic hlt ?_
    rw [hro]
    simp only [buildPage, hty, hdh]
  · intro dh hty hdh
    have hy := @getNextPage_yield d pt (recTokens ph body ++ rest) seen total
        (Page.dictionaryPage (recBuffer d ph body) (u32OfI32 dh.num_values)
          dh.encoding (dh.is_sorted.getD false)) 0 rest hlt (by
      rw [hro]
      simp only [buildPage, hty, hdh])
    simpa using hy
  · intro h1 hty hdh
    refine getNextPage_yield hlt ?_
    rw [hro]
    simp only [buildPage, hty, hdh]
  · intro h2 hty hdh
    refine getNextPage_yield hlt ?_
    rw [hro]
    simp only [buildPage, hty, hdh]

def c5header : PageHeader :=
  { type_ := PageType.dictionaryPage, uncompressed_page_size := 0,
    compressed_page_size := 0, data_page_header := none,
    dictionary_page_header := none, data_page_header_v2 := none }

theorem c5_counterexample :
    (getNextPage ⟨[Token.header c5header], none, 0, 1,
      PhysicalType.int32⟩).isErr = false ∧
    (getNextPage ⟨[Token.header c5header], none, 0, 1,
      PhysicalType.int32⟩).panicMsg =
      some ("assertion failed: page_header.dictionary_page_header.is_some()") := by
  constructor <;> rfl

def c5dict : DictionaryPageHeader :=
  { num_values := 2, encoding := 0, is_sorted := some false }

def c5header2 : PageHeader :=
  { type_ := PageType.dictionaryPage, uncompressed_page_size := 1,
    compressed_page_size := 1, data_page_header := none,
    dictionary_page_header := some c5dict, data_page_header_v2 := none }

theorem c5_witness :
    (c5header2.type_ = PageType.dictionaryPage →
      c5header2.dictionary_page_header = none →
      getNextPage ⟨recTokens c5header2 [9] ++ [], none, 0, 2,
        PhysicalType.int32⟩ =
        .panicked ("assertion failed: page_header.dictionary_page_header.is_some()")) ∧
    (c5header2.type_ = PageType.dataPage → c5header2.data_page_header = none →
      getNextPage ⟨recTokens c5header2 [9] ++ [], none, 0, 2,
        PhysicalType.int32⟩ =
        .panicked ("assertion failed: page_header.data_page_header.is_some()")) ∧
    (c5header2.type_ = PageType.dataPageV2 →
      c5header2.data_page_header_v2 = none →
      getNextPage ⟨recTokens c5header2 [9] ++ [], none, 0, 2,
        PhysicalType.int32⟩ =
        .panicked ("assertion failed: page_header.data_page_header_v2.is_some()")) ∧
    (∀ dh, c5header2.type_ = PageType.dictionaryPage →
      c5header2.dictionary_page_header = some dh →
      getNextPage ⟨recTokens c5header2 [9] ++ [], none, 0, 2,
        PhysicalType.int32⟩ =
        .ok (some (Page.dictionaryPage (recBuffer none c5header2 [9])
            (u32OfI32 dh.num_values) dh.encoding (dh.is_sorted.getD false)),
          ⟨[], none, 0, 2, PhysicalType.int32⟩)) ∧
    (∀ h1, c5header2.type_ = PageType.dataPage →
      c5header2.data_page_header = some h1 →
      getNextPage ⟨recTokens c5header2 [9] ++ [], none, 0, 2,
        PhysicalType.int32⟩ =
        .ok (some (Page.dataPage (recBuffer none c5header2 [9])
            (u32OfI32 h1.num_values) h1.encoding h1.definition_level_encoding
            h1.repetition_level_encoding
            (statisticsFromThrift PhysicalType.int32 h1.statistics)),
          ⟨[], none, 0 + h1.num_values, 2, PhysicalType.int32⟩)) ∧
    (∀ h2, c5header2.type_ = PageType.dataPageV2 →
      c5header2.data_page_header_v2 = some h2 →
      getNextPage ⟨recTokens c5header2 [9] ++ [], none, 0, 2,
        PhysicalType.int32⟩ =
        .ok (some (Page.dataPageV2 (recBuffer none c5header2 [9])
            (u32OfI32 h2.num_values) h2.encoding (u32OfI32 h2.num_nulls)
            (u32OfI32 h2.num_rows) (u32OfI32 h2.definition_levels_byte_length)
            (u32OfI32 h2.repetition_levels_byte_length)
            (h2.is_compressed.getD true)
            (statisticsFromThrift PhysicalType.int32 h2.statistics)),
          ⟨[], none, 0 + h2.num_values, 2, PhysicalType.int32⟩)) :=
  c5_amended_missing_subheader_panics none PhysicalType.int32 c5header2 [9]
    [] 0 2 (by decide) (by decide) (by decide) (by decide) (by decide)

/-- C6 (amended): requesting a row-group reader at an index at or past
`num_row_groups` panics in the unchecked metadata index access; the
function body has no error path, so it never returns an error result. -/
theorem c6_amended_out_of_range_panics (r : CachableSerializedFileReader)
    (i : Nat) (h : r.num_row_groups ≤ i) :
    r.get_row_group i = .panicked ("index out of bounds") ∧
    (r.get_row_group i).isErr = false := by
  have hnot : ¬ i < r.metadata.row_groups.length := by
    unfold CachableSerializedFileReader.num_row_groups
      ParquetMetaData.num_row_groups at h
    omega
  constructor <;>
    simp [CachableSerializedFileReader.get_row_group,
      ParquetMetaData.row_group, hnot, Outcome.isErr]

def c6reader : CachableSerializedFileReader :=
  { name := "f", chunk_reader := [],
    metadata := { file_metadata := 0, row_groups := [] } }

theorem c6_counterexample :
    (c6reader.get_row_group 0).isErr = false ∧
    (c6reader.get_row_group 0).panicMsg = some ("index out of bounds") := by
  constructor <;> rfl

theorem c6_witness :
    c6reader.get_row_group 0 = .panicked ("index out of bounds") ∧
    (c6reader.get_row_group 0).isErr = false :=
  c6_amended_out_of_range_panics c6reader 0 (by decide)

/-- C7 (amended): `get_data` returns whatever bytes the bounded source
read yields — `min(col_length, available)` bytes — with no verification
that the count equals `col_length`; a short read is returned as an
ordinary `Ok` with a shorter buffer, never as an error (and an I/O failure
inside `read_to_end` would be an `unwrap` panic, not an error result). -/
theorem c7_amended_short_read_returned (source : List Nat)
    (col_start col_length : Nat) :
    get_data source col_start col_length =
      .ok (directRead source col_start col_length) ∧
    (directRead source col_start col_length).length =
      min col_length (source.length - col_start) ∧
    (∀ e, get_data source col_start col_length ≠ .err e) := by
  refine ⟨rfl, ?_, ?_⟩
  · simp only [directRead, List.length_take, List.length_drop]
  · intro e h
    cases h

def c7source : List Nat := [1, 2]

theorem c7_counterexample :
    get_data c7source 0 5 = .ok [1, 2] ∧
    (get_data c7source 0 5).isErr = false ∧
    [1, 2].length ≠ 5 := by
  refine ⟨rfl, rfl, by decide⟩

theorem c7_witness :
    get_data c7source 0 5 = .ok (directRead c7source 0 5) ∧
    (directRead c7source 0 5).length = min 5 (c7source.length - 0) ∧
    (∀ e, get_data c7source 0 5 ≠ .err e) :=
  c7_amended_short_read_returned c7source 0 5

/-! ### C8: filter_row_groups -/

theorem filterLoop_enumFrom (p : RowGroupMetaData → Nat → Bool) :
    ∀ (l : List RowGroupMetaData) (i : Nat),
    filterLoop p l i =
      ((List.enumFrom i l).filter (fun pr => p pr.2 pr.1)).map Prod.snd := by
  intro l
  induction l with
  | nil => intro i; simp [filterLoop]
  | cons rg tl ih =>
    intro i
    simp only [filterLoop, List.enumFrom, List.filter]
    by_cases hp : p rg i
    · simp only [hp, if_true, List.map_cons, ih (i + 1)]
    · simp only [hp, if_false, ih (i + 1)]
      simp [hp]

/-- C8: `filter_row_groups` replaces the reader's metadata with a freshly
built metadata containing exactly the row groups accepted by the
predicate, where each row group is passed its original pre-filter index;
the file-level metadata and the rest of the reader are untouched (the
previously published metadata value itself is not mutated — a new value is
constructed); the constantly-false predicate leaves 0 row groups and does
not error. -/
theorem c8_filter_row_groups (r : CachableSerializedFileReader)
    (predicate : RowGroupMetaData → Nat → Bool) :
    (r.filter_row_groups predicate).metadata.row_groups =
      ((List.enumFrom 0 r.metadata.row_groups).filter
        (fun pr => predicate pr.2 pr.1)).map Prod.snd ∧
    (r.filter_row_groups predicate).metadata.file_metadata =
      r.metadata.file_metadata ∧
    (r.filter_row_groups predicate).name = r.name ∧
    (r.filter_row_groups predicate).chunk_reader = r.chunk_reader ∧
    (r.filter_row_groups (fun _ _ => false)).num_row_groups = 0 := by
  refine ⟨?_, rfl, rfl, rfl, ?_⟩
  · exact filterLoop_enumFrom predicate r.metadata.row_groups 0
  · simp only [CachableSerializedFileReader.num_row_groups,
      CachableSerializedFileReader.filter_row_groups,
      ParquetMetaData.num_row_groups,
      filterLoop_enumFrom (fun _ _ => false) r.metadata.row_groups 0]
    simp

/-! ### Decimal rendering: injectivity and underscore-freeness

Needed to show that `format_page_data_key` is injective in `(offset,
length)` for a fixed file name, which is what makes the data cache return
exactly the bytes that were inserted for the same byte range. -/

def undigitChar (c : Char) : Nat := c.toNat - 48

def ofDigitsLE : List Nat → Nat
  | [] => 0
  | d :: tl => d + 10 * ofDigitsLE tl

theorem undigitChar_digitChar {d : Nat} (h : d < 10) :
    undigitChar (digitChar d) = d := by
  interval_cases d <;> decide

theorem digitChar_ne_underscore {d : Nat} (h : d < 10) :
    digitChar d ≠ '_' := by
  interval_cases d <;> decide

theorem natDigitsAux_lt (fuel : Nat) :
    ∀ n d, d ∈ natDigitsAux fuel n → d < 10 := by
  induction fuel with
  | zero => intro n d h; simp [natDigitsAux] at h
  | succ f ih =>
    intro n d h
    cases n with
    | zero => simp [natDigitsAux] at h
    | succ k =>
      simp only [natDigitsAux, List.mem_cons] at h
      rcases h with rfl | h
      · exact Nat.mod_lt _ (by omega)
      · exact ih _ _ h

theorem natDigitsAux_of (fuel : Nat) :
    ∀ n, n ≤ fuel → ofDigitsLE (natDigitsAux fuel n) = n := by
  induction fuel with
  | zero =>
    intro n h
    obtain rfl : n = 0 := by omega
    simp [natDigitsAux, ofDigitsLE]
  | succ f ih =>
    intro n h
    cases n with
    | zero => simp [natDigitsAux, ofDigitsLE]
    | succ k =>
      have hdiv : (k + 1) / 10 ≤ f := by
        have := Nat.div_lt_self (Nat.succ_pos k) (by omega : 1 < 10)
        omega
      simp only [natDigitsAux, ofDigitsLE, ih _ hdiv]
      have := Nat.mod_add_div (k + 1) 10
      omega

/-- Reading a decimal string back; inverse of `natToString`. -/
def parseDigitsData (cs : List Char) : Nat :=
  ofDigitsLE (cs.reverse.map undigitChar)

theorem parseDigitsData_natToString (n : Nat) :
    parseDigitsData (natToString n).data = n := by
  by_cases h0 : n = 0
  · subst h0; decide
  · have hdata : (natToString n).data = (natDigitsLE n).reverse.map digitChar := by
      simp [natToString, h0]
    rw [hdata, parseDigitsData, ← List.map_reverse, List.reverse_reverse,
      List.map_map]
    have hmap : (natDigitsLE n).map (undigitChar ∘ digitChar) =
        (natDigitsLE n).map id := by
      refine List.map_congr_left ?_
      intro d hd
      exact undigitChar_digitChar (natDigitsAux_lt n n d hd)
    rw [hmap, List.map_id]
    exact natDigitsAux_of n n (le_refl n)

theorem natToString_data_inj {m n : Nat}
    (h : (natToString m).data = (natToString n).data) : m = n := by
  have := congrArg parseDigitsData h
  rwa [parseDigitsData_natToString, parseDigitsData_natToString] at this

theorem natToString_no_underscore (n : Nat) :
    '_' ∉ (natToString n).data := by
  by_cases h0 : n = 0
  · subst h0; decide
  · have hdata : (natToString n).data = (natDigitsLE n).reverse.map digitChar := by
      simp [natToString, h0]
    rw [hdata]
    intro hmem
    obtain ⟨d, hd, hdc⟩ := List.mem_map.mp hmem
    have hlt : d < 10 := natDigitsAux_lt n n d (List.mem_reverse.mp hd)
    exact digitChar_ne_underscore hlt hdc

theorem append_underscore_inj :
    ∀ (a c b e : List Char), '_' ∉ a → '_' ∉ c →
    a ++ '_' :: b = c ++ '_' :: e → a = c ∧ b = e := by
  intro a
  induction a with
  | nil =>
    intro c b e _ hc h
    cases c with
    | nil => simpa using h
    | cons y ys =>
      simp only [List.nil_append, List.cons_append, List.cons.injEq] at h
      exact absurd (h.1 ▸ List.mem_cons_self y ys) hc
  | cons x xs ih =>
    intro c b e ha hc h
    cases c with
    | nil =>
      simp only [List.cons_append, List.nil_append, List.cons.injEq] at h
      exact absurd (h.1 ▸ List.mem_cons_self x xs) ha
    | cons y ys =>
      simp only [List.cons_append, List.cons.injEq] at h
      obtain ⟨hxy, hrest⟩ := h
      have hxa : '_' ∉ xs := fun hm => ha (List.mem_cons_of_mem _ hm)
      have hyc : '_' ∉ ys := fun hm => hc (List.mem_cons_of_mem _ hm)
      obtain ⟨h1, h2⟩ := ih ys b e hxa hyc hrest
      exact ⟨by rw [hxy, h1], h2⟩

theorem format_page_data_key_data (name : String) (s l : Nat) :
    (format_page_data_key name s l).data =
      name.data ++ '_' :: ((natToString s).data ++ '_' :: (natToString l).data) := by
  have hu : ("_" : String).data = ['_'] := rfl
  simp [format_page_data_key, String.data_append, hu, List.append_assoc]

theorem format_page_data_key_inj {name : String} {s l s' l' : Nat}
    (h : format_page_data_key name s l = format_page_data_key name s' l') :
    s = s' ∧ l = l' := by
  have hd := congrArg String.data h
  rw [format_page_data_key_data, format_page_data_key_data] at hd
  have h1 := List.append_cancel_left hd
  simp only [List.cons.injEq, true_and] at h1
  obtain ⟨ha, hb⟩ := append_underscore_inj _ _ _ _
    (natToString_no_underscore s) (natToString_no_underscore s') h1
  have hb' : (natToString l).data = (natToString l').data := by
    simpa using hb
  exact ⟨natToString_data_inj ha, natToString_data_inj hb'⟩

/-! ### Cache consistency and the caching refinement -/

/-- Every entry the data cache holds under a key of this reader is exactly
the direct read of the byte range encoded in the key. -/
def dataCacheConsistent (name : String) (source : List Nat) (dc : DataCache) :
    Prop :=
  ∀ s l v, cacheGet dc (format_page_data_key name s l) = some v →
    v = directRead source s l

def metaCacheConsistent (name : String) (m : ParquetMetaData)
    (mc : MetaCache) : Prop :=
  ∀ v, cacheGet mc name = some v → v = m

theorem get_file_chunk_hit {name : String} {source : List Nat}
    {dc : DataCache} {s l : Nat} {v : List Nat}
    (hv : cacheGet dc (format_page_data_key name s l) = some v) :
    get_file_chunk name source (some dc) s l = .ok (v, some dc) := by
  simp [get_file_chunk, hv]

theorem get_file_chunk_miss {name : String} {source : List Nat}
    {dc : DataCache} {s l : Nat}
    (hv : cacheGet dc (format_page_data_key name s l) = none) :
    get_file_chunk name source (some dc) s l =
      .ok (directRead source s l,
        some (cachePut dc (format_page_data_key name s l)
          (directRead source s l))) := by
  simp [get_file_chunk, hv, get_data, getRead, directRead]

theorem get_file_chunk_none (name : String) (source : List Nat) (s l : Nat) :
    get_file_chunk name source none s l = .ok (directRead source s l, none) := rfl

theorem dataCacheConsistent_put {name : String} {source : List Nat}
    {dc : DataCache} (s l : Nat)
    (h : dataCacheConsistent name source dc) :
    dataCacheConsistent name source
      (cachePut dc (format_page_data_key name s l) (directRead source s l)) := by
  intro s' l' v hv
  simp only [cachePut, cacheGet] at hv
  by_cases heq : format_page_data_key name s l = format_page_data_key name s' l'
  · rw [if_pos heq] at hv
    obtain ⟨hs, hl⟩ := format_page_data_key_inj heq
    subst hs; subst hl
    simpa using hv.symm
  · rw [if_neg heq] at hv
    exact h s' l' v hv

theorem runRequests_consistent (name : String) (source : List Nat) :
    ∀ (reqs : List (Nat × Nat)) (dc : DataCache),
    dataCacheConsistent name source dc →
    ∃ dc', runRequests name source reqs (some dc) =
      .ok (reqs.map (fun p => directRead source p.1 p.2), some dc') ∧
      dataCacheConsistent name source dc' := by
  intro reqs
  induction reqs with
  | nil => intro dc h; exact ⟨dc, rfl, h⟩
  | cons pr tl ih =>
    intro dc h
    obtain ⟨s, l⟩ := pr
    cases hg : cacheGet dc (format_page_data_key name s l) with
    | some v =>
      have hv := h s l v hg
      obtain ⟨dc', hrun, hcons⟩ := ih dc h
      refine ⟨dc', ?_, hcons⟩
      simp only [runRequests, get_file_chunk_hit hg, hrun, hv, List.map_cons]
    | none =>
      obtain ⟨dc', hrun, hcons⟩ := ih _ (dataCacheConsistent_put s l h)
      refine ⟨dc', ?_, hcons⟩
      simp only [runRequests, get_file_chunk_miss hg, hrun, List.map_cons]

theorem runRequests_none (name : String) (source : List Nat) :
    ∀ reqs : List (Nat × Nat),
    runRequests name source reqs none =
      .ok (reqs.map (fun p => directRead source p.1 p.2), none) := by
  intro reqs
  induction reqs with
  | nil => rfl
  | cons pr tl ih =>
    obtain ⟨s, l⟩ := pr
    simp only [runRequests, get_file_chunk_none, ih, List.map_cons]

theorem new_consistent {name : String} {source : List Nat}
    {parse : Except ParquetError ParquetMetaData} {m : ParquetMetaData}
    {mc : MetaCache} (hp : parse = .ok m)
    (h : metaCacheConsistent name m mc) :
    ∃ mc', CachableSerializedFileReader.new name source parse (some mc) =
      .ok ({ name := name, chunk_reader := source, metadata := m }, some mc') ∧
      metaCacheConsistent name m mc' := by
  subst hp
  cases hg : cacheGet mc name with
  | some v =>
    have hv := h v hg
    refine ⟨mc, ?_, h⟩
    simp [CachableSerializedFileReader.new, hg, hv]
  | none =>
    refine ⟨cachePut mc name m, ?_, ?_⟩
    · simp [CachableSerializedFileReader.new, hg]
    · intro v hv
      simp only [cachePut, cacheGet, if_pos rfl] at hv
      simpa using hv.symm

theorem fullRead_cached {name : String} {source : List Nat}
    {parse : Except ParquetError ParquetMetaData} {m : ParquetMetaData}
    {mc : MetaCache} {dc : DataCache} (hp : parse = .ok m)
    (hmc : metaCacheConsistent name m mc)
    (hdc : dataCacheConsistent name source dc) :
    ∃ mc' dc', fullRead name source parse (some mc) (some dc) =
      .ok ((m, directChunks source m), some mc', some dc') ∧
      metaCacheConsistent name m mc' ∧ dataCacheConsistent name source dc' := by
  obtain ⟨mc', hnew, hmc'⟩ := @new_consistent name source parse m mc hp hmc
  obtain ⟨dc', hrun, hdc'⟩ :=
    runRequests_consistent name source (chunkRequests m) dc hdc
  refine ⟨mc', dc', ?_, hmc', hdc'⟩
  simp only [fullRead, hnew, hrun, directChunks]

theorem repeatFullRead_cached (name : String) (source : List Nat)
    (parse : Except ParquetError ParquetMetaData) (m : ParquetMetaData)
    (hp : parse = .ok m) :
    ∀ (N : Nat) (mc : MetaCache) (dc : DataCache),
    metaCacheConsistent name m mc → dataCacheConsistent name source dc →
    ∃ mc' dc', repeatFullRead name source parse N (some mc) (some dc) =
      .ok (List.replicate N (m, directChunks source m), some mc', some dc') ∧
      metaCacheConsistent name m mc' ∧ dataCacheConsistent name source dc' := by
  intro N
  induction N with
  | zero => intro mc dc hmc hdc; exact ⟨mc, dc, rfl, hmc, hdc⟩
  | succ n ih =>
    intro mc dc hmc hdc
    obtain ⟨mc1, dc1, hfull, hmc1, hdc1⟩ := fullRead_cached hp hmc hdc
    obtain ⟨mc', dc', hrep, hmc', hdc'⟩ := ih mc1 dc1 hmc1 hdc1
    refine ⟨mc', dc', ?_, hmc', hdc'⟩
    simp only [repeatFullRead, hfull, hrep, List.replicate_succ]

theorem fullRead_uncached {name : String} {source : List Nat}
    {parse : Except ParquetError ParquetMetaData} {m : ParquetMetaData}
    (hp : parse = .ok m) :
    fullRead name source parse none none =
      .ok ((m, directChunks source m), none, none) := by
  subst hp
  simp only [fullRead, CachableSerializedFileReader.new, runRequests_none,
    directChunks]

/-- C9: with the metadata cache and the data-chunk cache enabled (starting
empty), N ≥ 1 repeated full reads of the same file observe exactly the
metadata and chunk bytes of a single uncached read (pages and decoded rows
are deterministic functions of these); a data-cache hit returns the bytes
previously inserted under the key `"{name}_{offset}_{length}"` — which the
consistency invariant shows are the directly-read bytes — a miss reads,
inserts under that key, and returns the fresh bytes; and with no cache
every call reads the byte source directly with the same result. -/
theorem c9_cache_refinement (source : List Nat) (name : String)
    (parse : Except ParquetError ParquetMetaData) (m : ParquetMetaData)
    (hparse : parse = .ok m) (N : Nat) (hN : 1 ≤ N) :
    (∃ mcf dcf, repeatFullRead name source parse N (some []) (some []) =
      .ok (List.replicate N (m, directChunks source m), some mcf, some dcf)) ∧
    fullRead name source parse none none =
      .ok ((m, directChunks source m), none, none) ∧
    (∀ dc s l v, dataCacheConsistent name source dc →
      cacheGet dc (format_page_data_key name s l) = some v →
      get_file_chunk name source (some dc) s l = .ok (v, some dc) ∧
      v = directRead source s l) ∧
    (∀ dc s l, cacheGet dc (format_page_data_key name s l) = none →
      get_file_chunk name source (some dc) s l =
        .ok (directRead source s l,
          some (cachePut dc (format_page_data_key name s l)
            (directRead source s l)))) ∧
    (∀ s l, get_file_chunk name source none s l =
      .ok (directRead source s l, none)) := by
  refine ⟨?_, fullRead_uncached hparse, ?_, ?_, ?_⟩
  · obtain ⟨mc', dc', hrep, -, -⟩ := repeatFullRead_cached name source parse m
      hparse N [] [] (fun v hv => by cases hv) (fun s l v hv => by cases hv)
    exact ⟨mc', dc', hrep⟩
  · intro dc s l v hcons hget
    exact ⟨get_file_chunk_hit hget, hcons s l v hget⟩
  · intro dc s l hget
    exact get_file_chunk_miss hget
  · intro s l
    exact get_file_chunk_none name source s l

def c9meta : ParquetMetaData :=
  { file_metadata := 7,
    row_groups :=
      [{ columns :=
          [{ byte_range := (0, 2), num_values := 2, compression := 0,
             physical_type := PhysicalType.int32 },
           { byte_range := (2, 2), num_values := 2, compression := 0,
             physical_type := PhysicalType.int64 }] }] }

theorem c9_witness :
    (∃ mcf dcf, repeatFullRead "f" [1, 2, 3, 4] (.ok c9meta) 2
        (some []) (some []) =
      .ok (List.replicate 2 (c9meta, directChunks [1, 2, 3, 4] c9meta),
        some mcf, some dcf)) ∧
    fullRead "f" [1, 2, 3, 4] (.ok c9meta) none none =
      .ok ((c9meta, directChunks [1, 2, 3, 4] c9meta), none, none) ∧
    (∀ dc s l v, dataCacheConsistent "f" [1, 2, 3, 4] dc →
      cacheGet dc (format_page_data_key "f" s l) = some v →
      get_file_chunk "f" [1, 2, 3, 4] (some dc) s l = .ok (v, some dc) ∧
      v = directRead [1, 2, 3, 4] s l) ∧
    (∀ dc s l, cacheGet dc (format_page_data_key "f" s l) = none →
      get_file_chunk "f" [1, 2, 3, 4] (some dc) s l =
        .ok (directRead [1, 2, 3, 4] s l,
          some (cachePut dc (format_page_data_key "f" s l)
            (directRead [1, 2, 3, 4] s l)))) ∧
    (∀ s l, get_file_chunk "f" [1, 2, 3, 4] none s l =
      .ok (directRead [1, 2, 3, 4] s l, none)) :=
  c9_cache_refinement [1, 2, 3, 4] "f" (.ok c9meta) c9meta rfl 2 (by decide)

end CeresDB
